import Mathlib

/-!
Verification of the write-admission / merge-engine core of the PMTU Global
Pokedex service (src/app/main.py).

The store is the SQLite database: a `players` table keyed by `steam_id` and a
`captures` table with a unique index on `(steam_id, pokemon_name)`.  We embed
the two tables as lists, SQL queries as list functions, and the three write
procedures `_process_register`, `_process_capture` and `uncapture` as pure
state-passing functions `Store → ... → result × Store` (an `HTTPException`
becomes `Except.error`).  Every write procedure in the source runs under the
single global `WRITE_LOCK`, so sequential state passing is the exact semantics
of the serialized write path.
-/

deriving instance DecidableEq for Except

namespace Pokedex

/-- A row of the `players` table (src/app/main.py, `init_db`).  The
`steam_id` key is carried separately in the association list. -/
structure PlayerRow where
  steam_name : Option String
  steam_name_raw : Option String
  steam_name_safe : String
  created_at : String
  updated_at : String
  last_seen_at : String
deriving Repr, DecidableEq

/-- A row of the `captures` table.  `shiny` is the 0/1 integer column as a
Bool; the autoincrement `id` is modelled by list position. -/
structure CaptureRow where
  steam_id : String
  pokemon_name : String
  shiny : Bool
  captured_at : String
deriving Repr, DecidableEq

/-- The database state: both tables. -/
structure Store where
  players : List (String × PlayerRow)
  captures : List CaptureRow
deriving Repr, DecidableEq

/-- `SELECT 1 FROM players WHERE steam_id=?` followed by a fetchone test. -/
def playerExists (st : Store) (sid : String) : Bool :=
  st.players.any (fun p => p.fst == sid)

/-- `SELECT shiny FROM captures WHERE steam_id=? AND pokemon_name=?`
(fetchone).  The unique index guarantees at most one matching row; `find?`
returns the first. -/
def findCapture (st : Store) (sid species : String) : Option CaptureRow :=
  st.captures.find? (fun r => r.steam_id == sid && r.pokemon_name == species)

/-- The capture rows of one species. -/
def speciesRows (st : Store) (species : String) : List CaptureRow :=
  st.captures.filter (fun r => r.pokemon_name == species)

/-- `COUNT(DISTINCT steam_id) ... WHERE pokemon_name = ?` from the
pre-write snapshot query of `_process_capture`. -/
def distinctPlayers (st : Store) (species : String) : Nat :=
  ((speciesRows st species).map (fun r => r.steam_id)).dedup.length

/-- `SUM(CASE WHEN shiny = 1 THEN 1 ELSE 0 END) ... WHERE pokemon_name = ?`
from the same snapshot query (`or 0` turns the NULL of an empty sum into 0,
which is the length of the empty filter here). -/
def shinyRows (st : Store) (species : String) : Nat :=
  (st.captures.filter (fun r => r.pokemon_name == species && r.shiny)).length

/-- `INSERT OR IGNORE INTO captures(...)`: the unique index on
`(steam_id, pokemon_name)` makes this a no-op exactly when the pair already
has a row; `cur.rowcount > 0` is the returned Bool. -/
def insertCaptureIfAbsent (st : Store) (sid species : String) (shiny : Bool)
    (capturedAt : String) : Store × Bool :=
  match findCapture st sid species with
  | some _ => (st, false)
  | none =>
    (⟨st.players, st.captures ++ [⟨sid, species, shiny, capturedAt⟩]⟩, true)

/-- `UPDATE captures SET shiny = 1 WHERE steam_id = ? AND pokemon_name = ?
AND shiny = 0`; the returned Nat is `cur.rowcount` (rows actually updated). -/
def upgradeToShiny (st : Store) (sid species : String) : Store × Nat :=
  let hit := fun (r : CaptureRow) =>
    r.steam_id == sid && r.pokemon_name == species && r.shiny == false
  (⟨st.players,
    st.captures.map (fun r => if hit r then { r with shiny := true } else r)⟩,
   (st.captures.filter hit).length)

/-- `DELETE FROM captures WHERE steam_id = ? AND pokemon_name = ?`; the Nat
is `cur.rowcount` (rows deleted). -/
def deleteCapture (st : Store) (sid species : String) : Store × Nat :=
  let hit := fun (r : CaptureRow) =>
    r.steam_id == sid && r.pokemon_name == species
  (⟨st.players, st.captures.filter (fun r => !(hit r))⟩,
   (st.captures.filter hit).length)

/-- `CaptureReq`.  Pydantic gives `shiny: Optional[bool] = False`; the code
only ever tests its truthiness (`if req.shiny`, `1 if req.shiny else 0`), so a
missing or None flag behaves as `false` and is modelled as a Bool. -/
structure CaptureReq where
  steam_id : String
  pokemon_name : String
  shiny : Bool
  captured_at : Option String
deriving Repr, DecidableEq

/-- `UncaptureReq`. -/
structure UncaptureReq where
  steam_id : String
  pokemon_name : String
deriving Repr, DecidableEq

/-- `RegisterReq`. -/
structure RegisterReq where
  steam_id : String
  steam_name : Option String
deriving Repr, DecidableEq

/-- The flag part of a capture response body. -/
structure CaptureFlags where
  inserted : Bool
  shiny_upgraded : Bool
  first_overall : Bool
  first_shiny : Bool
deriving Repr, DecidableEq

/-- A capture response body: either the mega/gmax "ignored" dict or the
flags dict (both carry `"ok": true`). -/
inductive CaptureBody where
  | ignored (reason : String)
  | flags (f : CaptureFlags)
deriving Repr, DecidableEq

/-- An `HTTPException(status_code, detail)`. -/
structure HTTPError where
  status : Nat
  detail : String
deriving Repr, DecidableEq

/-- Python `str.lower()`, character by character.  `Char.toLower` lowercases
the ASCII range, which coincides with Python on every ASCII string; species
names are compared against the ASCII prefixes "mega " / "gmax ". -/
def pyLower (s : String) : String := String.mk (s.toList.map Char.toLower)

/-- Python `str.startswith(p)`. -/
def pyStarts (s p : String) : Bool := p.toList.isPrefixOf s.toList

/-- The mega/gmax filter at the top of `_process_capture` and of the
`/v1/capture` endpoint. -/
def isIgnoredSpecies (name : String) : Bool :=
  pyStarts (pyLower name) "mega " || pyStarts (pyLower name) "gmax "

/-- The short-circuit test of `_process_capture`:
`existing and (existing["shiny"] == 1 or not req.shiny)`. -/
def existingShortCircuit (existing : Option CaptureRow) (reqShiny : Bool) :
    Bool :=
  match existing with
  | some row => row.shiny || !reqShiny
  | none => false

/-- The all-false no-op body returned on the duplicate path. -/
def noopFlags : CaptureFlags := ⟨false, false, false, false⟩

/-- `_process_capture(req)` (src/app/main.py:266-358), with `now` the value
`datetime.now(...)` would supply for a missing `captured_at`.  Returns the
`(body, status)` pair together with the post store; the `HTTPException(400)`
for an unregistered player is the error case. -/
def processCapture (req : CaptureReq) (now : String) (st : Store) :
    Except HTTPError ((CaptureBody × Nat) × Store) :=
  if isIgnoredSpecies req.pokemon_name then
    Except.ok ((CaptureBody.ignored "mega-gmax-not-tracked", 200), st)
  else
    let capturedAt := match req.captured_at with
      | some t => t
      | none => now
    if playerExists st req.steam_id = false then
      Except.error ⟨400, "Player not registered"⟩
    else
      let existing := findCapture st req.steam_id req.pokemon_name
      if existingShortCircuit existing req.shiny then
        Except.ok ((CaptureBody.flags noopFlags, 200), st)
      else
        let preTotalPlayers := distinctPlayers st req.pokemon_name
        let preShiny := shinyRows st req.pokemon_name
        let ins := insertCaptureIfAbsent st req.steam_id req.pokemon_name
          req.shiny capturedAt
        let inserted := ins.snd
        let upg := if req.shiny then
            upgradeToShiny ins.fst req.steam_id req.pokemon_name
          else (ins.fst, 0)
        let shinyUpgraded := decide (0 < upg.snd)
        let status := if inserted || shinyUpgraded then 201 else 200
        let firstOverall := inserted && decide (preTotalPlayers = 0)
        let firstShiny :=
          req.shiny && decide (preShiny = 0) && (inserted || shinyUpgraded)
        Except.ok
          ((CaptureBody.flags ⟨inserted, shinyUpgraded, firstOverall,
             firstShiny⟩, status), upg.fst)

/-- `uncapture(req)` (src/app/main.py:455-475): body is `{ok, deleted}`,
modelled by the deleted count; status on success is 200. -/
def processUncapture (req : UncaptureReq) (st : Store) :
    Except HTTPError (Nat × Store) :=
  if playerExists st req.steam_id = false then
    Except.error ⟨400, "Player not registered"⟩
  else
    let del := deleteCapture st req.steam_id req.pokemon_name
    Except.ok (del.snd, del.fst)

/-!
## Sanitizer (`make_safe_name`, src/app/main.py:39-48)

The Python pipeline calls two pieces of the host Unicode library:

* `unicodedata.normalize("NFC", name)` — modelled as the identity.  NFC is
  the identity on every string without decomposed sequences, in particular
  on all ASCII strings; every concrete input evaluated below is ASCII, where
  the model agrees with Python exactly.
* `unicodedata.category(ch) in ("Cc", "Cf")` — modelled by explicit decidable
  predicates listing the Unicode Cc and Cf code point ranges.

The rest of the pipeline (whitespace collapse, strip, allow-list filter,
truncation, fallback) is embedded step for step.
-/

/-- `unicodedata.normalize("NFC", s)`, modelled as the identity (exact on
NFC-normal input, e.g. all ASCII). -/
def nfcNormalize (s : String) : String := s

/-- Unicode general category Cc (control characters). -/
def isCcChar (c : Char) : Bool :=
  let v := c.toNat
  v < 0x20 || v == 0x7F || (0x80 ≤ v && v ≤ 0x9F)

/-- Unicode general category Cf (format characters). -/
def isCfChar (c : Char) : Bool :=
  let v := c.toNat
  v == 0xAD || (0x600 ≤ v && v ≤ 0x605) || v == 0x61C || v == 0x6DD ||
  v == 0x70F || (0x890 ≤ v && v ≤ 0x891) || v == 0x8E2 || v == 0x180E ||
  (0x200B ≤ v && v ≤ 0x200F) || (0x202A ≤ v && v ≤ 0x202E) ||
  (0x2060 ≤ v && v ≤ 0x2064) || (0x2066 ≤ v && v ≤ 0x206F) ||
  v == 0xFEFF || (0xFFF9 ≤ v && v ≤ 0xFFFB) ||
  v == 0x110BD || v == 0x110CD || (0x13430 ≤ v && v ≤ 0x1343F) ||
  (0x1BCA0 ≤ v && v ≤ 0x1BCA3) || (0x1D173 ≤ v && v ≤ 0x1D17A) ||
  v == 0xE0001 || (0xE0020 ≤ v && v ≤ 0xE007F)

/-- The whitespace class of Python's `re` pattern `\s` on `str` (also the
`str.strip` set): ASCII whitespace, the C1 separators, NEL, NBSP and the
Unicode space separators. -/
def pyIsSpace (c : Char) : Bool :=
  let v := c.toNat
  (0x9 ≤ v && v ≤ 0xD) || (0x1C ≤ v && v ≤ 0x1F) || v == 0x20 || v == 0x85 ||
  v == 0xA0 || v == 0x1680 || (0x2000 ≤ v && v ≤ 0x200A) || v == 0x2028 ||
  v == 0x2029 || v == 0x202F || v == 0x205F || v == 0x3000

/-- The complement of `SAFE_CHARS_RE = [^0-9A-Za-zÀ-￿ <punct>]`
(src/app/main.py:32): the characters that the substitution keeps. -/
def isAllowedChar (c : Char) : Bool :=
  let v := c.toNat
  (0x30 ≤ v && v ≤ 0x39) || (0x41 ≤ v && v ≤ 0x5A) ||
  (0x61 ≤ v && v ≤ 0x7A) || (0xC0 ≤ v && v ≤ 0xFFFF) || v == 0x20 ||
  c == '-' || c == '_' || c == '.' || c == '(' || c == ')' || c == '!' ||
  c == '@' || c == '#' || c == '$' || c == '%' || c == '&' || c == '+' ||
  c == '=' || c == ',' || c == ':' || c == ';'

/-- `re.sub(r"\s+", " ", n)`: every maximal run of whitespace becomes one
ASCII space. -/
def collapseWs : List Char → List Char
  | [] => []
  | [c] => if pyIsSpace c then [' '] else [c]
  | c :: d :: cs =>
    if pyIsSpace c then
      if pyIsSpace d then collapseWs (d :: cs)
      else ' ' :: collapseWs (d :: cs)
    else c :: collapseWs (d :: cs)

/-- `str.rstrip()` (whitespace only). -/
def rstripWs (l : List Char) : List Char :=
  (l.reverse.dropWhile pyIsSpace).reverse

/-- `str.strip()` (whitespace only). -/
def stripWs (l : List Char) : List Char :=
  rstripWs (l.dropWhile pyIsSpace)

/-- `MAX_NAME_LEN = 64`. -/
def MAX_NAME_LEN : Nat := 64

/-- `if len(n) > MAX_NAME_LEN: n = n[:MAX_NAME_LEN].rstrip()` —
note the rstrip is applied only on the truncation branch. -/
def truncateName (l : List Char) : List Char :=
  if MAX_NAME_LEN < l.length then rstripWs (l.take MAX_NAME_LEN) else l

/-- The body of `make_safe_name` on a non-empty input: NFC, drop Cc/Cf,
collapse and strip whitespace, drop disallowed characters, truncate. -/
def sanitizePipeline (s : String) : List Char :=
  truncateName
    (((stripWs (collapseWs
        ((nfcNormalize s).toList.filter
          (fun c => !(isCcChar c || isCfChar c))))).filter isAllowedChar))

/-- `make_safe_name(name)` (src/app/main.py:39-48).  `if not name` catches
both None and the empty string; the final `return n or "Unknown"` is the
empty-result fallback. -/
def make_safe_name (name : Option String) : String :=
  match name with
  | none => "Unknown"
  | some s =>
    if s == "" then "Unknown"
    else
      let n := sanitizePipeline s
      if n.isEmpty then "Unknown" else String.mk n

/-- The register response body (src/app/main.py:244-251). -/
structure RegisterBody where
  steam_id : String
  steam_name : Option String
  steam_name_safe : String
  created : Bool
  updated : Bool
deriving Repr, DecidableEq

/-- `_process_register(req)` (src/app/main.py:218-251), with `now` the
timestamp taken at entry.  Register never raises: it returns `(body, status)`
and the post store. -/
def processRegister (req : RegisterReq) (now : String) (st : Store) :
    (RegisterBody × Nat) × Store :=
  let safe := make_safe_name req.steam_name
  let already := playerExists st req.steam_id
  let players :=
    if already then
      st.players.map (fun p =>
        if p.fst == req.steam_id then
          (p.fst, { p.snd with
            steam_name := req.steam_name
            steam_name_raw := req.steam_name
            steam_name_safe := safe
            updated_at := now
            last_seen_at := now })
        else p)
    else
      st.players ++ [(req.steam_id,
        ⟨req.steam_name, req.steam_name, safe, now, now, now⟩)]
  ((⟨req.steam_id, req.steam_name, safe, !already, already⟩,
    if already then 200 else 201),
   ⟨players, st.captures⟩)

/-!
## Fast path and the sequential intent trace

`/v1/capture` (src/app/main.py:396-453) performs the mega/gmax filter and an
unsynchronized duplicate pre-check before enqueueing; we embed the part of the
endpoint that runs before the queue.  The worker threads drain each queue
sequentially and every write procedure holds the global `WRITE_LOCK`, so a
run of the system is a sequence of intents applied one after the other; the
trace semantics below is that sequential application.
-/

/-- What the `/v1/capture` endpoint does before touching the queue:
return the ignored body, return the no-op body from the duplicate pre-check,
or fall through to enqueueing. -/
inductive FastPathOutcome where
  | done (body : CaptureBody) (status : Nat)
  | enqueue
deriving Repr, DecidableEq

/-- The pre-queue portion of `capture(req)` (src/app/main.py:396-427).  The
plain dict returned on the mega/gmax branch gets FastAPI's default status
200. -/
def captureFastPath (req : CaptureReq) (st : Store) : FastPathOutcome :=
  if isIgnoredSpecies req.pokemon_name then
    FastPathOutcome.done (CaptureBody.ignored "mega-gmax-not-tracked") 200
  else
    match findCapture st req.steam_id req.pokemon_name with
    | some row =>
      if row.shiny || !req.shiny then
        FastPathOutcome.done (CaptureBody.flags noopFlags) 200
      else FastPathOutcome.enqueue
    | none => FastPathOutcome.enqueue

/-- One intent reaching the serialized write path, with the timestamp the
processing code would read from the clock. -/
inductive Intent where
  | register (req : RegisterReq) (now : String)
  | capture (req : CaptureReq) (now : String)
  | uncapture (req : UncaptureReq)
deriving Repr, DecidableEq

/-- The observable result of processing one intent. -/
inductive Outcome where
  | registered (body : RegisterBody) (status : Nat)
  | captured (body : CaptureBody) (status : Nat)
  | uncaptured (deleted : Nat)
  | failed (e : HTTPError)
deriving Repr, DecidableEq

/-- Process one intent against the store; a raised `HTTPException` leaves the
store untouched (the procedures close the connection without writing). -/
def stepIntent (st : Store) : Intent → Store × Outcome
  | Intent.register req now =>
    let r := processRegister req now st
    (r.snd, Outcome.registered r.fst.fst r.fst.snd)
  | Intent.capture req now =>
    match processCapture req now st with
    | Except.ok r => (r.snd, Outcome.captured r.fst.fst r.fst.snd)
    | Except.error e => (st, Outcome.failed e)
  | Intent.uncapture req =>
    match processUncapture req st with
    | Except.ok r => (r.snd, Outcome.uncaptured r.fst)
    | Except.error e => (st, Outcome.failed e)

/-- The store after a sequence of intents has been processed in order. -/
def storeAfter (st : Store) (l : List Intent) : Store :=
  l.foldl (fun s i => (stepIntent s i).fst) st

/-- The outcome delivered for the i-th intent of a sequential run. -/
def outcomeAt (st : Store) (l : List Intent) (i : Nat) : Option Outcome :=
  (l.get? i).map (fun it => (stepIntent (storeAfter st (l.take i)) it).snd)

/-- Is this an Uncapture intent? -/
def Intent.isUncapture : Intent → Bool
  | Intent.uncapture _ => true
  | _ => false

/-- The i-th intent is a Capture of species `s` whose delivered outcome has
`first_overall = true`. -/
def firesFirstOverall (st : Store) (l : List Intent) (s : String) (i : Nat) :
    Prop :=
  ∃ req now f status, l.get? i = some (Intent.capture req now) ∧
    req.pokemon_name = s ∧
    outcomeAt st l i = some (Outcome.captured (CaptureBody.flags f) status) ∧
    f.first_overall = true

/-- The i-th intent is a Capture of species `s` whose delivered outcome has
`first_shiny = true`. -/
def firesFirstShiny (st : Store) (l : List Intent) (s : String) (i : Nat) :
    Prop :=
  ∃ req now f status, l.get? i = some (Intent.capture req now) ∧
    req.pokemon_name = s ∧
    outcomeAt st l i = some (Outcome.captured (CaptureBody.flags f) status) ∧
    f.first_shiny = true

/-- The uniqueness invariant enforced by the unique index
`idx_captures_unique_player_species`: no two capture rows share a
`(steam_id, pokemon_name)` pair. -/
def WF (st : Store) : Prop :=
  st.captures.Pairwise
    (fun a b => ¬(a.steam_id = b.steam_id ∧ a.pokemon_name = b.pokemon_name))

instance (st : Store) : Decidable (WF st) := by
  unfold WF; infer_instance

/-- The foreign-key discipline of the data model: every capture row belongs
to a registered player (`FOREIGN KEY(steam_id) REFERENCES players`; the core
only inserts captures after the player-existence check and never deletes
players). -/
def fkOk (st : Store) : Prop :=
  ∀ r ∈ st.captures, playerExists st r.steam_id = true

instance (st : Store) : Decidable (fkOk st) := by
  unfold fkOk; infer_instance

/-- The filtering invariant: no persisted capture row has a mega/gmax
species (the merge engine discards such intents before any write). -/
def noMega (st : Store) : Prop :=
  ∀ r ∈ st.captures, isIgnoredSpecies r.pokemon_name = false

instance (st : Store) : Decidable (noMega st) := by
  unfold noMega; infer_instance

/-- The store after `_process_capture`, where a raised `HTTPException`
leaves the store as it was. -/
def capturePostStore (req : CaptureReq) (now : String) (st : Store) : Store :=
  match processCapture req now st with
  | Except.ok r => r.snd
  | Except.error _ => st

/-! Small concrete stores reused by the witnesses below. -/

/-- A registered player row. -/
def ashRow : PlayerRow := ⟨some "Ash", some "Ash", "Ash", "t0", "t0", "t0"⟩

/-- One registered player, no captures. -/
def stAsh : Store := ⟨[("P1", ashRow)], []⟩

/-- One registered player with a non-shiny Pikachu capture. -/
def stAshPika : Store := ⟨[("P1", ashRow)], [⟨"P1", "Pikachu", false, "t1"⟩]⟩

/-- One registered player with a shiny Pikachu capture. -/
def stAshPikaShiny : Store :=
  ⟨[("P1", ashRow)], [⟨"P1", "Pikachu", true, "t1"⟩]⟩

/-- A character that can occur in a sanitizer output: kept by the allow-list,
not a control/format character, and if whitespace then exactly the ASCII
space. -/
def sanOutChar (c : Char) : Bool :=
  isAllowedChar c && !isCcChar c && !isCfChar c && (!pyIsSpace c || c == ' ')

/-- One-pass normal form of sanitizer outputs: nonempty, at most 64
characters, every character a `sanOutChar`. -/
def SanStage1 (t : String) : Prop :=
  t ≠ "" ∧ t.toList.length ≤ 64 ∧ ∀ c ∈ t.toList, sanOutChar c = true

/-- Two-pass normal form: additionally no two adjacent spaces and no space
at either end. -/
def SanStage2 (t : String) : Prop :=
  SanStage1 t ∧ List.Chain' (fun a b => ¬(a = ' ' ∧ b = ' ')) t.toList ∧
  t.toList.head? ≠ some ' ' ∧ t.toList.getLast? ≠ some ' '

/-- A concrete run containing an Uncapture: register, capture, uncapture,
capture again. -/
def seqWithUncapture : List Intent :=
  [Intent.register ⟨"P1", some "Ash"⟩ "t0",
   Intent.capture ⟨"P1", "Pikachu", false, some "t1"⟩ "t1",
   Intent.uncapture ⟨"P1", "Pikachu"⟩,
   Intent.capture ⟨"P1", "Pikachu", false, some "t2"⟩ "t2"]

/-- A concrete run of Register and Capture intents only. -/
def seqRegCap : List Intent :=
  [Intent.register ⟨"P1", some "Ash"⟩ "t0",
   Intent.capture ⟨"P1", "Pikachu", false, some "t1"⟩ "t1"]

end Pokedex

namespace Pokedex

/-! ## General lemmas about the store operations -/

theorem length_dropWhile_le (p : α → Bool) (l : List α) :
    (l.dropWhile p).length ≤ l.length := by
  induction l with
  | nil => simp [List.dropWhile]
  | cons a l ih =>
    by_cases h : p a
    · simp only [List.dropWhile, h]
      exact Nat.le_succ_of_le ih
    · simp [List.dropWhile, h]

theorem rstripWs_length_le (l : List Char) : (rstripWs l).length ≤ l.length := by
  unfold rstripWs
  simpa using length_dropWhile_le pyIsSpace l.reverse

/-- C5: for every Capture intent whose species name begins with the
case-insensitive prefix "mega " or "gmax ", the merge engine returns the
`{ok: true, ignored: true, reason: "mega-gmax-not-tracked"}` body with the
store completely unchanged (so no capture row is ever created), for every
store — in particular also when the player is unregistered; the endpoint
fast path returns the same body before enqueueing. -/
theorem c5_mega_gmax_discarded (req : CaptureReq) (now : String) (st : Store)
    (h : isIgnoredSpecies req.pokemon_name = true) :
    processCapture req now st =
      Except.ok ((CaptureBody.ignored "mega-gmax-not-tracked", 200), st) ∧
    captureFastPath req st =
      FastPathOutcome.done (CaptureBody.ignored "mega-gmax-not-tracked") 200 := by
  constructor
  · simp [processCapture, h]
  · simp [captureFastPath, h]

/-- Witness for C5: "Mega Charizard X" submitted by an unregistered player
against the empty store. -/
theorem c5_mega_gmax_discarded_witness :
    isIgnoredSpecies "Mega Charizard X" = true ∧
    processCapture ⟨"P2", "Mega Charizard X", false, none⟩ "t1" ⟨[], []⟩ =
      Except.ok ((CaptureBody.ignored "mega-gmax-not-tracked", 200),
        ⟨[], []⟩) ∧
    captureFastPath ⟨"P2", "Mega Charizard X", false, none⟩ ⟨[], []⟩ =
      FastPathOutcome.done (CaptureBody.ignored "mega-gmax-not-tracked") 200 :=
  ⟨by decide, c5_mega_gmax_discarded ⟨"P2", "Mega Charizard X", false, none⟩
    "t1" ⟨[], []⟩ (by decide)⟩

theorem findCapture_mem {st : Store} {sid sp : String} {row : CaptureRow}
    (h : findCapture st sid sp = some row) : row ∈ st.captures :=
  List.mem_of_find?_eq_some h

theorem findCapture_matches {st : Store} {sid sp : String} {row : CaptureRow}
    (h : findCapture st sid sp = some row) :
    row.steam_id = sid ∧ row.pokemon_name = sp := by
  have h2 := List.find?_some h
  simp only [Bool.and_eq_true, beq_iff_eq] at h2
  exact h2

/-- Under the foreign-key discipline, a pair with a capture row has a
registered player. -/
theorem fkOk_player {st : Store} (hfk : fkOk st) {sid sp : String}
    {row : CaptureRow} (h : findCapture st sid sp = some row) :
    playerExists st sid = true := by
  have hm := hfk row (findCapture_mem h)
  obtain ⟨h1, _⟩ := findCapture_matches h
  rwa [h1] at hm

/-- Under the filtering invariant, a species with a capture row is not a
mega/gmax form. -/
theorem noMega_species {st : Store} (hnm : noMega st) {sid sp : String}
    {row : CaptureRow} (h : findCapture st sid sp = some row) :
    isIgnoredSpecies sp = false := by
  have hm := hnm row (findCapture_mem h)
  obtain ⟨_, h2⟩ := findCapture_matches h
  rwa [h2] at hm

/-- C1: on the write path of `_process_capture` (species not mega/gmax,
player registered, not short-circuited as a duplicate) the returned flags
satisfy `first_overall = inserted && (pre-write distinct players = 0)` and
`first_shiny = shiny && (pre-write shiny rows = 0) && (inserted ||
shiny_upgraded)`, where both counts are those of the store before any write
of this intent, and the HTTP status is 201 iff inserted or upgraded. -/
theorem c1_milestone_flags (req : CaptureReq) (now : String) (st : Store)
    (hmega : isIgnoredSpecies req.pokemon_name = false)
    (hplayer : playerExists st req.steam_id = true)
    (hsc : existingShortCircuit
      (findCapture st req.steam_id req.pokemon_name) req.shiny = false) :
    ∃ f status st2,
      processCapture req now st =
        Except.ok ((CaptureBody.flags f, status), st2) ∧
      f.first_overall =
        (f.inserted && decide (distinctPlayers st req.pokemon_name = 0)) ∧
      f.first_shiny = (req.shiny &&
        decide (shinyRows st req.pokemon_name = 0) &&
        (f.inserted || f.shiny_upgraded)) ∧
      status = (if f.inserted || f.shiny_upgraded then 201 else 200) := by
  simp only [processCapture, hmega, hplayer, hsc, Bool.false_eq_true,
    Bool.true_eq_false, if_false]
  exact ⟨_, _, _, rfl, rfl, rfl, rfl⟩

/-- Witness for C1: a fresh shiny capture by a registered player. -/
theorem c1_milestone_flags_witness :
    isIgnoredSpecies "Pikachu" = false ∧
    playerExists ⟨[("P1", ⟨none, none, "Unknown", "t0", "t0", "t0"⟩)], []⟩
      "P1" = true ∧
    existingShortCircuit (findCapture
      ⟨[("P1", ⟨none, none, "Unknown", "t0", "t0", "t0"⟩)], []⟩
      "P1" "Pikachu") true = false ∧
    ∃ f status st2,
      processCapture ⟨"P1", "Pikachu", true, none⟩ "t1"
        ⟨[("P1", ⟨none, none, "Unknown", "t0", "t0", "t0"⟩)], []⟩ =
        Except.ok ((CaptureBody.flags f, status), st2) ∧
      f.first_overall = (f.inserted && decide (distinctPlayers
        ⟨[("P1", ⟨none, none, "Unknown", "t0", "t0", "t0"⟩)], []⟩
        "Pikachu" = 0)) ∧
      f.first_shiny = (true && decide (shinyRows
        ⟨[("P1", ⟨none, none, "Unknown", "t0", "t0", "t0"⟩)], []⟩
        "Pikachu" = 0) && (f.inserted || f.shiny_upgraded)) ∧
      status = (if f.inserted || f.shiny_upgraded then 201 else 200) :=
  ⟨by decide, by decide, by decide,
   c1_milestone_flags ⟨"P1", "Pikachu", true, none⟩ "t1"
     ⟨[("P1", ⟨none, none, "Unknown", "t0", "t0", "t0"⟩)], []⟩
     (by decide) (by decide) (by decide)⟩

/-- C4: (a) when a row exists for the pair and it is shiny or the intent is
non-shiny, `_process_capture` returns the all-false no-op body with HTTP 200
and an unchanged store; (b) a non-shiny Capture intent for a registered
player and an absent pair inserts once (HTTP 201, inserted flag true, no
upgrade) and the identical repeat returns the all-false no-op with the store
unchanged. -/
theorem c4_capture_idempotent (req : CaptureReq) (now now2 : String)
    (st : Store) :
    (∀ row, fkOk st → noMega st →
      findCapture st req.steam_id req.pokemon_name = some row →
      (row.shiny || !req.shiny) = true →
      processCapture req now st =
        Except.ok ((CaptureBody.flags noopFlags, 200), st)) ∧
    (req.shiny = false → isIgnoredSpecies req.pokemon_name = false →
      playerExists st req.steam_id = true →
      findCapture st req.steam_id req.pokemon_name = none →
      ∃ f st2, processCapture req now st =
          Except.ok ((CaptureBody.flags f, 201), st2) ∧
        f.inserted = true ∧ f.shiny_upgraded = false ∧
        processCapture req now2 st2 =
          Except.ok ((CaptureBody.flags noopFlags, 200), st2)) := by
  constructor
  · intro row hfk hnm hrow hcond
    have hmega := noMega_species hnm hrow
    have hplayer := fkOk_player hfk hrow
    simp only [processCapture, hmega, hplayer, hrow, existingShortCircuit,
      hcond, Bool.false_eq_true, Bool.true_eq_false, if_false, if_true]
  · intro hsh hmega hplayer hnone
    simp only [processCapture, insertCaptureIfAbsent, existingShortCircuit,
      hmega, hplayer, hnone, hsh, Bool.false_eq_true, Bool.true_eq_false,
      if_false, Bool.not_false, Bool.true_or, if_true, Bool.false_and,
      Bool.and_false]
    refine ⟨_, _, rfl, rfl, by simp, ?_⟩
    have hfind2 : findCapture
        ⟨st.players, st.captures ++
          [⟨req.steam_id, req.pokemon_name, false,
            match req.captured_at with | some t => t | none => now⟩]⟩
        req.steam_id req.pokemon_name =
        some ⟨req.steam_id, req.pokemon_name, false,
          match req.captured_at with | some t => t | none => now⟩ := by
      unfold findCapture at hnone ⊢
      simp only [List.find?_append, hnone, Option.none_or]
      simp [List.find?]
    simp only [processCapture, hmega, hfind2, existingShortCircuit, hsh]
    have hplayer2 : playerExists
        ⟨st.players, st.captures ++
          [⟨req.steam_id, req.pokemon_name, false,
            match req.captured_at with | some t => t | none => now⟩]⟩
        req.steam_id = true := hplayer
    simp [hplayer2]

/-- An insert for any pair keeps every existing pair's row reachable
unchanged. -/
theorem findCapture_insert {st : Store} {sid sp : String} {row : CaptureRow}
    (sid2 sp2 : String) (sh : Bool) (t : String)
    (h : findCapture st sid sp = some row) :
    findCapture (insertCaptureIfAbsent st sid2 sp2 sh t).fst sid sp =
      some row := by
  unfold insertCaptureIfAbsent
  cases hf : findCapture st sid2 sp2 with
  | some r => simpa using h
  | none =>
    unfold findCapture at h ⊢
    simp only [List.find?_append, h]
    rfl

/-- The shiny upgrade leaves a row that is already shiny untouched. -/
theorem findCapture_upgradeShiny {st : Store} {sid sp : String}
    {row : CaptureRow} (sid2 sp2 : String)
    (h : findCapture st sid sp = some row) (hsh : row.shiny = true) :
    findCapture (upgradeToShiny st sid2 sp2).fst sid sp = some row := by
  show List.find? (fun r => r.steam_id == sid && r.pokemon_name == sp)
    (st.captures.map fun r =>
      if r.steam_id == sid2 && r.pokemon_name == sp2 && r.shiny == false
      then { r with shiny := true } else r) = some row
  rw [List.find?_map]
  have hg : ((fun r : CaptureRow => r.steam_id == sid &&
        r.pokemon_name == sp) ∘
      (fun r : CaptureRow =>
        if r.steam_id == sid2 && r.pokemon_name == sp2 && r.shiny == false
        then { r with shiny := true } else r)) =
      (fun r : CaptureRow => r.steam_id == sid && r.pokemon_name == sp) := by
    funext r
    simp only [Function.comp_apply]
    split
    · rfl
    · rfl
  rw [hg]
  unfold findCapture at h
  rw [h]
  show some (if row.steam_id == sid2 && row.pokemon_name == sp2 &&
      row.shiny == false then { row with shiny := true } else row) = some row
  rw [hsh]
  simp

/-- The duplicate short-circuit of `_process_capture`: an existing row that
is shiny, or any existing row met by a non-shiny intent, yields the no-op
body and an unchanged store. -/
theorem processCapture_shortCircuit (req : CaptureReq) (now : String)
    (st : Store) (row : CaptureRow)
    (hmega : isIgnoredSpecies req.pokemon_name = false)
    (hplayer : playerExists st req.steam_id = true)
    (hrow : findCapture st req.steam_id req.pokemon_name = some row)
    (hcond : (row.shiny || !req.shiny) = true) :
    processCapture req now st =
      Except.ok ((CaptureBody.flags noopFlags, 200), st) := by
  simp only [processCapture, hmega, hplayer, hrow, existingShortCircuit,
    hcond, Bool.false_eq_true, Bool.true_eq_false, if_false, if_true]

/-- C3: a shiny stored row stays shiny through any `_process_capture` call
(no operation ever downgrades a shiny flag), and a Capture intent for a pair
whose row is already shiny — shiny or not — is the exact no-op, leaving the
store untouched. -/
theorem c3_shiny_monotonic (req : CaptureReq) (now : String) (st : Store) :
    (∀ sid sp row, findCapture st sid sp = some row → row.shiny = true →
      ∃ row2, findCapture (capturePostStore req now st) sid sp = some row2 ∧
        row2.shiny = true) ∧
    (∀ row, fkOk st → noMega st →
      findCapture st req.steam_id req.pokemon_name = some row →
      row.shiny = true →
      processCapture req now st =
        Except.ok ((CaptureBody.flags noopFlags, 200), st)) := by
  constructor
  · intro sid sp row hrow hsh
    by_cases hmega : isIgnoredSpecies req.pokemon_name = true
    · unfold capturePostStore
      simp only [processCapture, hmega, if_true]
      exact ⟨row, hrow, hsh⟩
    · have hmega' : isIgnoredSpecies req.pokemon_name = false := by
        simpa using hmega
      by_cases hpl : playerExists st req.steam_id = true
      · by_cases hsc : existingShortCircuit
            (findCapture st req.steam_id req.pokemon_name) req.shiny = true
        · unfold capturePostStore
          simp only [processCapture, hmega', hpl, hsc, Bool.false_eq_true,
            Bool.true_eq_false, if_false, if_true]
          exact ⟨row, hrow, hsh⟩
        · have hsc' : existingShortCircuit
              (findCapture st req.steam_id req.pokemon_name) req.shiny =
              false := by simpa using hsc
          unfold capturePostStore
          simp only [processCapture, hmega', hpl, hsc', Bool.false_eq_true,
            Bool.true_eq_false, if_false]
          have h1 := findCapture_insert req.steam_id req.pokemon_name
            req.shiny
            (match req.captured_at with | some t => t | none => now) hrow
          by_cases hq : req.shiny = true
          · rw [hq] at h1
            simp only [hq, if_true]
            exact ⟨row, findCapture_upgradeShiny req.steam_id
              req.pokemon_name h1 hsh, hsh⟩
          · have hq2 : req.shiny = false := by simpa using hq
            rw [hq2] at h1
            simp only [hq2, Bool.false_eq_true, if_false]
            exact ⟨row, h1, hsh⟩
      · have hpl' : playerExists st req.steam_id = false := by
          simpa using hpl
        unfold capturePostStore
        simp only [processCapture, hmega', hpl', Bool.false_eq_true,
          if_false, if_true]
        exact ⟨row, hrow, hsh⟩
  · intro row hfk hnm hrow hsh
    exact processCapture_shortCircuit req now st row
      (noMega_species hnm hrow) (fkOk_player hfk hrow) hrow
      (by rw [hsh]; rfl)

/-- Witness for C3: a shiny Pikachu row survives a non-shiny repeat, which
is a no-op. -/
theorem c3_shiny_monotonic_witness :
    (∃ row2, findCapture (capturePostStore
        ⟨"P1", "Pikachu", false, some "t2"⟩ "t2" stAshPikaShiny)
        "P1" "Pikachu" = some row2 ∧ row2.shiny = true) ∧
    processCapture ⟨"P1", "Pikachu", false, some "t2"⟩ "t2" stAshPikaShiny =
      Except.ok ((CaptureBody.flags noopFlags, 200), stAshPikaShiny) := by
  have h := c3_shiny_monotonic ⟨"P1", "Pikachu", false, some "t2"⟩ "t2"
    stAshPikaShiny
  exact ⟨h.1 "P1" "Pikachu" ⟨"P1", "Pikachu", true, "t1"⟩ (by decide)
      (by decide),
    h.2 ⟨"P1", "Pikachu", true, "t1"⟩ (by decide) (by decide) (by decide)
      (by decide)⟩

/-- In a list without duplicate `(steam_id, pokemon_name)` pairs, at most
one row matches a given pair. -/
theorem filter_pair_le_one {l : List CaptureRow}
    (hwf : l.Pairwise (fun a b =>
      ¬(a.steam_id = b.steam_id ∧ a.pokemon_name = b.pokemon_name)))
    (sid sp : String) :
    (l.filter (fun r =>
      r.steam_id == sid && r.pokemon_name == sp)).length ≤ 1 := by
  have hp := List.Pairwise.filter
    (fun r : CaptureRow => r.steam_id == sid && r.pokemon_name == sp) hwf
  have hmem : ∀ r ∈ l.filter (fun r =>
      r.steam_id == sid && r.pokemon_name == sp),
      r.steam_id = sid ∧ r.pokemon_name = sp := by
    intro r hr
    have hr2 := List.of_mem_filter hr
    simpa using hr2
  rcases hl : l.filter (fun r =>
      r.steam_id == sid && r.pokemon_name == sp) with _ | ⟨a, _ | ⟨b, t⟩⟩
  · simp [hl]
  · simp [hl]
  · exfalso
    rw [hl] at hp hmem
    have hab := (List.pairwise_cons.mp hp).1 b (by simp)
    have ha := hmem a (by simp)
    have hb := hmem b (by simp)
    exact hab ⟨ha.1.trans hb.1.symm, ha.2.trans hb.2.symm⟩

/-- C6: a non-mega Capture intent and an Uncapture request raise the
HTTP 400 "Player not registered" error exactly when no player row exists,
and an error leaves the store unchanged; a non-failing Uncapture deletes the
pair's row unconditionally (whatever its shiny state), touches nothing else,
and reports a deleted count of at most 1. -/
theorem c6_unregistered_400 (creq : CaptureReq) (ureq : UncaptureReq)
    (now : String) (st : Store)
    (hmega : isIgnoredSpecies creq.pokemon_name = false) (hwf : WF st) :
    ((∃ e, processCapture creq now st = Except.error e) ↔
      playerExists st creq.steam_id = false) ∧
    (∀ e, processCapture creq now st = Except.error e →
      e = ⟨400, "Player not registered"⟩) ∧
    (playerExists st creq.steam_id = false →
      (stepIntent st (Intent.capture creq now)).fst = st) ∧
    ((∃ e, processUncapture ureq st = Except.error e) ↔
      playerExists st ureq.steam_id = false) ∧
    (∀ e, processUncapture ureq st = Except.error e →
      e = ⟨400, "Player not registered"⟩) ∧
    (playerExists st ureq.steam_id = false →
      (stepIntent st (Intent.uncapture ureq)).fst = st) ∧
    (∀ d st2, processUncapture ureq st = Except.ok (d, st2) →
      st2.players = st.players ∧
      st2.captures = st.captures.filter (fun r =>
        !(r.steam_id == ureq.steam_id &&
          r.pokemon_name == ureq.pokemon_name)) ∧
      d ≤ 1) := by
  have hcap : ∀ e, processCapture creq now st = Except.error e →
      playerExists st creq.steam_id = false ∧
      e = (⟨400, "Player not registered"⟩ : HTTPError) := by
    intro e he
    by_cases hpl : playerExists st creq.steam_id = true
    · exfalso
      by_cases hsc : existingShortCircuit
          (findCapture st creq.steam_id creq.pokemon_name) creq.shiny = true
      · simp only [processCapture, hmega, hpl, hsc, Bool.false_eq_true,
          Bool.true_eq_false, if_false, if_true] at he
        exact Except.noConfusion he
      · have hsc2 : existingShortCircuit
            (findCapture st creq.steam_id creq.pokemon_name) creq.shiny =
            false := by simpa using hsc
        simp only [processCapture, hmega, hpl, hsc2, Bool.false_eq_true,
          Bool.true_eq_false, if_false] at he
        exact Except.noConfusion he
    · have hpl2 : playerExists st creq.steam_id = false := by simpa using hpl
      simp only [processCapture, hmega, hpl2, Bool.false_eq_true, if_false,
        if_true, Except.error.injEq] at he
      exact ⟨hpl2, he.symm⟩
  have huncap : ∀ e, processUncapture ureq st = Except.error e →
      playerExists st ureq.steam_id = false ∧
      e = (⟨400, "Player not registered"⟩ : HTTPError) := by
    intro e he
    by_cases hpl : playerExists st ureq.steam_id = true
    · exfalso
      simp only [processUncapture, hpl, Bool.true_eq_false, if_false] at he
      exact Except.noConfusion he
    · have hpl2 : playerExists st ureq.steam_id = false := by simpa using hpl
      simp only [processUncapture, hpl2, if_true, Except.error.injEq] at he
      exact ⟨hpl2, he.symm⟩
  refine ⟨⟨fun ⟨e, he⟩ => (hcap e he).1, fun hpl => ?_⟩,
    fun e he => (hcap e he).2, fun hpl => ?_,
    ⟨fun ⟨e, he⟩ => (huncap e he).1, fun hpl => ?_⟩,
    fun e he => (huncap e he).2, fun hpl => ?_, fun d st2 h => ?_⟩
  · exact ⟨⟨400, "Player not registered"⟩, by
      simp only [processCapture, hmega, hpl, Bool.false_eq_true, if_false,
        if_true]⟩
  · simp only [stepIntent, processCapture, hmega, hpl, Bool.false_eq_true,
      if_false, if_true]
  · exact ⟨⟨400, "Player not registered"⟩, by
      simp only [processUncapture, hpl, if_true]⟩
  · simp only [stepIntent, processUncapture, hpl, if_true]
  · by_cases hpl : playerExists st ureq.steam_id = true
    · simp only [processUncapture, deleteCapture, hpl, Bool.true_eq_false,
        if_false, Except.ok.injEq, Prod.mk.injEq] at h
      obtain ⟨hd, hst⟩ := h
      refine ⟨by rw [← hst], by rw [← hst], ?_⟩
      rw [← hd]
      exact filter_pair_le_one hwf ureq.steam_id ureq.pokemon_name
    · have hpl2 : playerExists st ureq.steam_id = false := by simpa using hpl
      simp only [processUncapture, hpl2, if_true] at h
      exact Except.noConfusion h

/-- Witness for C6: uncapturing an unregistered player fails with 400 and a
registered player's shiny-agnostic delete removes the single row. -/
theorem c6_unregistered_400_witness :
    ((∃ e, processCapture ⟨"P9", "Pikachu", false, none⟩ "t1" stAshPikaShiny =
        Except.error e) ↔
      playerExists stAshPikaShiny "P9" = false) ∧
    (∀ d st2, processUncapture ⟨"P1", "Pikachu"⟩ stAshPikaShiny =
        Except.ok (d, st2) →
      st2.players = stAshPikaShiny.players ∧
      st2.captures = stAshPikaShiny.captures.filter (fun r =>
        !(r.steam_id == "P1" && r.pokemon_name == "Pikachu")) ∧
      d ≤ 1) := by
  have h := c6_unregistered_400 ⟨"P9", "Pikachu", false, none⟩
    ⟨"P1", "Pikachu"⟩ "t1" stAshPikaShiny (by decide) (by decide)
  exact ⟨h.1, h.2.2.2.2.2.2⟩

/-- C7: whenever the unsynchronized fast-path pre-check of `/v1/capture`
short-circuits on a store obeying the foreign-key discipline, the body and
status it returns are exactly what `_process_capture` would produce for the
same request on the same store (which it additionally leaves unchanged). -/
theorem c7_fastpath_agrees (req : CaptureReq) (now : String) (st : Store)
    (hfk : fkOk st) (hmega : isIgnoredSpecies req.pokemon_name = false)
    (body : CaptureBody) (status : Nat)
    (hfp : captureFastPath req st = FastPathOutcome.done body status) :
    processCapture req now st = Except.ok ((body, status), st) := by
  unfold captureFastPath at hfp
  rw [hmega] at hfp
  simp only [Bool.false_eq_true, if_false] at hfp
  cases hrow : findCapture st req.steam_id req.pokemon_name with
  | none =>
    rw [hrow] at hfp
    exact absurd hfp (by simp)
  | some row =>
    rw [hrow] at hfp
    replace hfp : (if (row.shiny || !req.shiny) = true then
        FastPathOutcome.done (CaptureBody.flags noopFlags) 200
      else FastPathOutcome.enqueue) = FastPathOutcome.done body status := hfp
    by_cases hc : (row.shiny || !req.shiny) = true
    · rw [if_pos hc] at hfp
      obtain ⟨hb, hs⟩ := FastPathOutcome.done.inj hfp
      rw [← hb, ← hs]
      exact processCapture_shortCircuit req now st row hmega
        (fkOk_player hfk hrow) hrow hc
    · rw [if_neg hc] at hfp
      exact absurd hfp (by simp)

/-- Witness for C7: the duplicate pre-check on a non-shiny repeat agrees
with the merge engine. -/
theorem c7_fastpath_agrees_witness :
    captureFastPath ⟨"P1", "Pikachu", false, some "t2"⟩ stAshPika =
      FastPathOutcome.done (CaptureBody.flags noopFlags) 200 ∧
    processCapture ⟨"P1", "Pikachu", false, some "t2"⟩ "t2" stAshPika =
      Except.ok ((CaptureBody.flags noopFlags, 200), stAshPika) :=
  ⟨by decide, c7_fastpath_agrees ⟨"P1", "Pikachu", false, some "t2"⟩ "t2"
    stAshPika (by decide) (by decide) (CaptureBody.flags noopFlags) 200
    (by decide)⟩

/-- C8: `_process_register` returns the sanitized name, `created` exactly
when the id was unknown, `updated = !created`, status 201 on create else
200; an existing player keeps its id and `created_at` and only the name
fields, `updated_at` and `last_seen_at` change; a new player gets
created/updated/last-seen all set to `now`; captures and all other players
are untouched. -/
theorem c8_register_upsert (req : RegisterReq) (now : String) (st : Store) :
    (processRegister req now st).fst.fst =
      ⟨req.steam_id, req.steam_name, make_safe_name req.steam_name,
        !(playerExists st req.steam_id), playerExists st req.steam_id⟩ ∧
    (processRegister req now st).fst.snd =
      (if playerExists st req.steam_id then 200 else 201) ∧
    (processRegister req now st).snd.captures = st.captures ∧
    (∀ p ∈ st.players, (p.fst == req.steam_id) = false →
      p ∈ (processRegister req now st).snd.players) ∧
    (∀ p ∈ st.players, (p.fst == req.steam_id) = true →
      playerExists st req.steam_id = true ∧
      (p.fst, { p.snd with
        steam_name := req.steam_name
        steam_name_raw := req.steam_name
        steam_name_safe := make_safe_name req.steam_name
        updated_at := now
        last_seen_at := now }) ∈ (processRegister req now st).snd.players) ∧
    (playerExists st req.steam_id = false →
      (processRegister req now st).snd.players =
        st.players ++ [(req.steam_id,
          ⟨req.steam_name, req.steam_name, make_safe_name req.steam_name,
            now, now, now⟩)]) := by
  refine ⟨rfl, rfl, rfl, ?_, ?_, ?_⟩
  · intro p hp hne
    by_cases hal : playerExists st req.steam_id = true
    · simp only [processRegister, hal, if_true]
      have h2 : (if p.fst == req.steam_id then
          (p.fst, { p.snd with
            steam_name := req.steam_name
            steam_name_raw := req.steam_name
            steam_name_safe := make_safe_name req.steam_name
            updated_at := now
            last_seen_at := now }) else p) = p := by
        rw [hne]
        simp
      exact List.mem_map.mpr ⟨p, hp, h2⟩
    · have hal2 : playerExists st req.steam_id = false := by simpa using hal
      simp only [processRegister, hal2, Bool.false_eq_true, if_false]
      exact List.mem_append_left _ hp
  · intro p hp heq
    have hal : playerExists st req.steam_id = true := by
      unfold playerExists
      exact List.any_eq_true.mpr ⟨p, hp, heq⟩
    refine ⟨hal, ?_⟩
    simp only [processRegister, hal, if_true]
    have h2 : (if p.fst == req.steam_id then
        (p.fst, { p.snd with
          steam_name := req.steam_name
          steam_name_raw := req.steam_name
          steam_name_safe := make_safe_name req.steam_name
          updated_at := now
          last_seen_at := now }) else p) =
        (p.fst, { p.snd with
          steam_name := req.steam_name
          steam_name_raw := req.steam_name
          steam_name_safe := make_safe_name req.steam_name
          updated_at := now
          last_seen_at := now }) := by
      rw [heq]
      simp
    exact List.mem_map.mpr ⟨p, hp, h2⟩
  · intro hal
    simp only [processRegister, hal, Bool.false_eq_true, if_false]

/-- Witness for C8: re-registering P1 with a new name updates the name
fields and timestamps in place, preserving `created_at`. -/
theorem c8_register_upsert_witness :
    (("P1", ashRow) ∈ stAsh.players ∧ (("P1" : String) == "P1") = true) ∧
    playerExists stAsh "P1" = true ∧
    ("P1", { ashRow with
      steam_name := some "Red"
      steam_name_raw := some "Red"
      steam_name_safe := make_safe_name (some "Red")
      updated_at := "t5"
      last_seen_at := "t5" }) ∈
      (processRegister ⟨"P1", some "Red"⟩ "t5" stAsh).snd.players :=
  ⟨⟨by decide, by decide⟩,
   (c8_register_upsert ⟨"P1", some "Red"⟩ "t5" stAsh).2.2.2.2.1
     ("P1", ashRow) (by decide) (by decide)⟩

/-- Witness for C4: a duplicate non-shiny Pikachu capture is a no-op, and a
fresh non-shiny capture inserts once then no-ops on the identical repeat. -/
theorem c4_capture_idempotent_witness :
    processCapture ⟨"P1", "Pikachu", false, some "t2"⟩ "t2" stAshPika =
      Except.ok ((CaptureBody.flags noopFlags, 200), stAshPika) ∧
    (∃ f st2, processCapture ⟨"P1", "Pikachu", false, some "t1"⟩ "t1" stAsh =
        Except.ok ((CaptureBody.flags f, 201), st2) ∧
      f.inserted = true ∧ f.shiny_upgraded = false ∧
      processCapture ⟨"P1", "Pikachu", false, some "t1"⟩ "t1" st2 =
        Except.ok ((CaptureBody.flags noopFlags, 200), st2)) :=
  ⟨(c4_capture_idempotent ⟨"P1", "Pikachu", false, some "t2"⟩ "t2" "t2"
      stAshPika).1 ⟨"P1", "Pikachu", false, "t1"⟩ (by decide) (by decide)
      (by decide) (by decide),
   (c4_capture_idempotent ⟨"P1", "Pikachu", false, some "t1"⟩ "t1" "t1"
      stAsh).2 (by decide) (by decide) (by decide) (by decide)⟩


/-! ## Sanitizer lemmas -/

theorem sanOutChar_iff (c : Char) : sanOutChar c = true ↔
    (isAllowedChar c = true ∧ isCcChar c = false ∧ isCfChar c = false ∧
      (pyIsSpace c = true → c = ' ')) := by
  unfold sanOutChar
  simp only [Bool.and_eq_true, Bool.not_eq_true', Bool.or_eq_true,
    beq_iff_eq]
  constructor
  · rintro ⟨⟨⟨h1, h2⟩, h3⟩, h4⟩
    refine ⟨h1, h2, h3, fun hsp => ?_⟩
    rcases h4 with h | h
    · rw [hsp] at h
      cases h
    · exact h
  · rintro ⟨h1, h2, h3, h4⟩
    refine ⟨⟨⟨h1, h2⟩, h3⟩, ?_⟩
    by_cases hsp : pyIsSpace c = true
    · exact Or.inr (h4 hsp)
    · exact Or.inl (by simpa using hsp)

theorem mem_collapseWs : ∀ l : List Char, ∀ c ∈ collapseWs l,
    c = ' ' ∨ c ∈ l
  | [] => by simp [collapseWs]
  | [a] => by
    intro c hc
    by_cases h : pyIsSpace a = true
    · simp only [collapseWs, h, if_true, List.mem_singleton] at hc
      exact Or.inl hc
    · simp only [collapseWs, h, Bool.false_eq_true, if_false,
        List.mem_singleton] at hc
      exact Or.inr (by simp [hc])
  | a :: b :: t => by
    intro c hc
    by_cases ha : pyIsSpace a = true
    · by_cases hb : pyIsSpace b = true
      · simp only [collapseWs, ha, hb, if_true] at hc
        rcases mem_collapseWs (b :: t) c hc with h | h
        · exact Or.inl h
        · exact Or.inr (List.mem_cons_of_mem a h)
      · simp only [collapseWs, ha, hb, Bool.false_eq_true, if_true,
          if_false, List.mem_cons] at hc
        rcases hc with h | h
        · exact Or.inl h
        · rcases mem_collapseWs (b :: t) c h with h2 | h2
          · exact Or.inl h2
          · exact Or.inr (List.mem_cons_of_mem a h2)
    · simp only [collapseWs, ha, Bool.false_eq_true, if_false,
        List.mem_cons] at hc
      rcases hc with h | h
      · exact Or.inr (by simp [h])
      · rcases mem_collapseWs (b :: t) c h with h2 | h2
        · exact Or.inl h2
        · exact Or.inr (List.mem_cons_of_mem a h2)

theorem collapseWs_space : ∀ l : List Char, ∀ c ∈ collapseWs l,
    pyIsSpace c = true → c = ' '
  | [] => by simp [collapseWs]
  | [a] => by
    intro c hc hsp
    by_cases h : pyIsSpace a = true
    · simp only [collapseWs, h, if_true, List.mem_singleton] at hc
      exact hc
    · simp only [collapseWs, h, Bool.false_eq_true, if_false,
        List.mem_singleton] at hc
      rw [hc] at hsp
      rw [hsp] at h
      cases h rfl
  | a :: b :: t => by
    intro c hc hsp
    by_cases ha : pyIsSpace a = true
    · by_cases hb : pyIsSpace b = true
      · simp only [collapseWs, ha, hb, if_true] at hc
        exact collapseWs_space (b :: t) c hc hsp
      · simp only [collapseWs, ha, hb, Bool.false_eq_true, if_true,
          if_false, List.mem_cons] at hc
        rcases hc with h | h
        · exact h
        · exact collapseWs_space (b :: t) c h hsp
    · simp only [collapseWs, ha, Bool.false_eq_true, if_false,
        List.mem_cons] at hc
      rcases hc with h | h
      · rw [h] at hsp
        rw [hsp] at ha
        cases ha rfl
      · exact collapseWs_space (b :: t) c h hsp

theorem collapseWs_length_le : ∀ l : List Char,
    (collapseWs l).length ≤ l.length
  | [] => by simp [collapseWs]
  | [a] => by
    by_cases h : pyIsSpace a = true <;> simp [collapseWs, h]
  | a :: b :: t => by
    by_cases ha : pyIsSpace a = true
    · by_cases hb : pyIsSpace b = true
      · simp only [collapseWs, ha, hb, if_true]
        exact le_trans (collapseWs_length_le (b :: t)) (by simp)
      · simp only [collapseWs, ha, hb, Bool.false_eq_true, if_true,
          if_false, List.length_cons]
        exact Nat.succ_le_succ (collapseWs_length_le (b :: t))
    · simp only [collapseWs, ha, Bool.false_eq_true, if_false,
        List.length_cons]
      exact Nat.succ_le_succ (collapseWs_length_le (b :: t))

theorem mem_rstripWs {l : List Char} {c : Char} (h : c ∈ rstripWs l) :
    c ∈ l := by
  unfold rstripWs at h
  rw [List.mem_reverse] at h
  have h2 := (List.dropWhile_sublist (l := l.reverse) (p := pyIsSpace)).mem h
  rwa [List.mem_reverse] at h2

theorem mem_stripWs {l : List Char} {c : Char} (h : c ∈ stripWs l) :
    c ∈ l := by
  unfold stripWs at h
  have h2 := mem_rstripWs h
  exact (List.dropWhile_sublist (l := l) (p := pyIsSpace)).mem h2

theorem mem_truncateName {l : List Char} {c : Char}
    (h : c ∈ truncateName l) : c ∈ l := by
  unfold truncateName at h
  split at h
  · exact (List.take_sublist _ _).mem (mem_rstripWs h)
  · exact h

theorem sanitizePipeline_length (s : String) :
    (sanitizePipeline s).length ≤ 64 := by
  unfold sanitizePipeline truncateName MAX_NAME_LEN
  split
  · refine le_trans (rstripWs_length_le _) ?_
    rw [List.length_take]
    exact min_le_left _ _
  · omega

/-- Every character of the sanitizer pipeline output is a `sanOutChar`. -/
theorem sanitizePipeline_chars (s : String) :
    ∀ c ∈ sanitizePipeline s, sanOutChar c = true := by
  intro c hc
  unfold sanitizePipeline at hc
  have h1 := mem_truncateName hc
  have hallow : isAllowedChar c = true := by
    have := List.of_mem_filter h1
    simpa using this
  have h2 : c ∈ stripWs (collapseWs
      ((nfcNormalize s).toList.filter
        (fun c => !(isCcChar c || isCfChar c)))) := List.mem_of_mem_filter h1
  have h3 : c ∈ collapseWs
      ((nfcNormalize s).toList.filter
        (fun c => !(isCcChar c || isCfChar c))) := mem_stripWs h2
  have hspace := collapseWs_space _ c h3
  rcases mem_collapseWs _ c h3 with hsp | hmem
  · rw [hsp]
    decide
  · have hcc := List.of_mem_filter hmem
    simp only [Bool.not_eq_true', Bool.or_eq_false_iff] at hcc
    exact (sanOutChar_iff c).mpr ⟨hallow, hcc.1, hcc.2, hspace⟩


theorem head?_dropWhile_false (p : Char → Bool) :
    ∀ l : List Char, ∀ c, (l.dropWhile p).head? = some c → p c = false
  | [] => by simp [List.dropWhile]
  | a :: t => by
    intro c hc
    rw [List.dropWhile_cons] at hc
    by_cases h : p a = true
    · rw [if_pos h] at hc
      exact head?_dropWhile_false p t c hc
    · rw [if_neg h] at hc
      simp only [List.head?_cons, Option.some.injEq] at hc
      rw [← hc]
      simpa using h

theorem dropWhile_eq_self_of_head (p : Char → Bool) (l : List Char)
    (h : ∀ c, l.head? = some c → p c = false) : l.dropWhile p = l := by
  cases l with
  | nil => rfl
  | cons a t =>
    rw [List.dropWhile_cons, if_neg]
    simp [h a rfl]

theorem chain'_dropWhile {R : Char → Char → Prop} (p : Char → Bool) :
    ∀ l : List Char, List.Chain' R l → List.Chain' R (l.dropWhile p)
  | [] => fun h => h
  | a :: t => fun h => by
    rw [List.dropWhile_cons]
    by_cases hp : p a = true
    · rw [if_pos hp]
      exact chain'_dropWhile p t h.tail
    · rw [if_neg hp]
      exact h

theorem chain'_reverse_of_symm {R : Char → Char → Prop}
    (hsymm : ∀ a b, R a b → R b a) {l : List Char}
    (h : List.Chain' R l) : List.Chain' R l.reverse := by
  rw [List.chain'_reverse]
  exact h.imp hsymm

theorem rstripWs_prefix (l : List Char) : rstripWs l <+: l := by
  have h := List.dropWhile_suffix (l := l.reverse) (p := pyIsSpace)
  have h2 := List.reverse_prefix.mpr h
  rwa [List.reverse_reverse] at h2

theorem stripWs_length_le (l : List Char) : (stripWs l).length ≤ l.length := by
  unfold stripWs
  exact le_trans (rstripWs_length_le _) (length_dropWhile_le _ _)

theorem collapseWs_cons_head (b : Char) (t : List Char)
    (h : pyIsSpace b = false) : (collapseWs (b :: t)).head? = some b := by
  cases t with
  | nil => simp [collapseWs, h]
  | cons c t2 => simp [collapseWs, h]

theorem collapseWs_chain' : ∀ l : List Char,
    List.Chain' (fun a b => ¬(pyIsSpace a = true ∧ pyIsSpace b = true))
      (collapseWs l)
  | [] => by simp [collapseWs]
  | [a] => by
    by_cases h : pyIsSpace a = true <;> simp [collapseWs, h]
  | a :: b :: t => by
    by_cases ha : pyIsSpace a = true
    · by_cases hb : pyIsSpace b = true
      · simp only [collapseWs, ha, hb, if_true]
        exact collapseWs_chain' (b :: t)
      · have hb2 : pyIsSpace b = false := by simpa using hb
        simp only [collapseWs, ha, hb2, Bool.false_eq_true, if_true, if_false]
        rw [List.chain'_cons']
        refine ⟨?_, collapseWs_chain' (b :: t)⟩
        intro x hx
        rw [collapseWs_cons_head b t hb2] at hx
        have hxb : x = b := by
          have h9 : b = x := by simpa [Option.mem_def] using hx
          exact h9.symm
        intro hcon
        rw [hxb] at hcon
        rw [hcon.2] at hb2
        cases hb2
    · simp only [collapseWs, ha, Bool.false_eq_true, if_false]
      rw [List.chain'_cons']
      refine ⟨?_, collapseWs_chain' (b :: t)⟩
      intro x _ hcon
      exact ha hcon.1

theorem stripWs_chain' {l : List Char}
    (h : List.Chain' (fun a b =>
      ¬(pyIsSpace a = true ∧ pyIsSpace b = true)) l) :
    List.Chain' (fun a b => ¬(pyIsSpace a = true ∧ pyIsSpace b = true))
      (stripWs l) := by
  have hsymm : ∀ a b : Char,
      (¬(pyIsSpace a = true ∧ pyIsSpace b = true)) →
      ¬(pyIsSpace b = true ∧ pyIsSpace a = true) :=
    fun a b hab hc => hab ⟨hc.2, hc.1⟩
  unfold stripWs rstripWs
  exact chain'_reverse_of_symm hsymm
    (chain'_dropWhile pyIsSpace _
      (chain'_reverse_of_symm hsymm (chain'_dropWhile pyIsSpace l h)))

theorem stripWs_head {l : List Char} {c : Char}
    (h : (stripWs l).head? = some c) : pyIsSpace c = false := by
  unfold stripWs at h
  obtain ⟨t2, ht⟩ := rstripWs_prefix (l.dropWhile pyIsSpace)
  have hY : (l.dropWhile pyIsSpace).head? = some c := by
    rw [← ht, List.head?_append, h]
    rfl
  exact head?_dropWhile_false pyIsSpace l c hY

theorem stripWs_getLast {l : List Char} {c : Char}
    (h : (stripWs l).getLast? = some c) : pyIsSpace c = false := by
  unfold stripWs rstripWs at h
  rw [List.getLast?_reverse] at h
  exact head?_dropWhile_false pyIsSpace _ c h

theorem collapseWs_eq_self : ∀ l : List Char,
    (∀ c ∈ l, pyIsSpace c = true → c = ' ') →
    List.Chain' (fun a b => ¬(a = ' ' ∧ b = ' ')) l →
    collapseWs l = l
  | [] => by
    intro _ _
    rfl
  | [a] => by
    intro hws _
    by_cases h : pyIsSpace a = true
    · have h2 := hws a (by simp) h
      simp [collapseWs, h, h2]
    · simp [collapseWs, h]
  | a :: b :: t => by
    intro hws hch
    by_cases ha : pyIsSpace a = true
    · have ha2 : a = ' ' := hws a (by simp) ha
      by_cases hb : pyIsSpace b = true
      · have hb2 : b = ' ' := hws b (by simp) hb
        exact absurd ⟨ha2, hb2⟩ (List.chain'_cons.mp hch).1
      · simp only [collapseWs, ha, hb, Bool.false_eq_true, if_true, if_false]
        rw [collapseWs_eq_self (b :: t)
          (fun c hc => hws c (List.mem_cons_of_mem a hc)) hch.tail, ha2]
    · simp only [collapseWs, ha, Bool.false_eq_true, if_false]
      rw [collapseWs_eq_self (b :: t)
        (fun c hc => hws c (List.mem_cons_of_mem a hc)) hch.tail]

theorem stripWs_eq_self {l : List Char}
    (hh : ∀ c, l.head? = some c → pyIsSpace c = false)
    (hl : ∀ c, l.getLast? = some c → pyIsSpace c = false) :
    stripWs l = l := by
  unfold stripWs rstripWs
  rw [dropWhile_eq_self_of_head _ l hh]
  rw [dropWhile_eq_self_of_head _ l.reverse
    (fun c hc => hl c (by rwa [List.head?_reverse] at hc))]
  exact List.reverse_reverse l

theorem cccf_filter_eq_self {l : List Char}
    (hchars : ∀ c ∈ l, sanOutChar c = true) :
    l.filter (fun c => !(isCcChar c || isCfChar c)) = l := by
  apply List.filter_eq_self.mpr
  intro a ha
  have h2 := (sanOutChar_iff a).mp (hchars a ha)
  simp [h2.2.1, h2.2.2.1]

/-- On a one-pass normal form the pipeline is exactly
whitespace-collapse-and-strip. -/
theorem sanitizePipeline_of_stage1 {t : String} (h : SanStage1 t) :
    sanitizePipeline t = stripWs (collapseWs t.toList) := by
  obtain ⟨hne, hlen, hchars⟩ := h
  have hfilter2 : (stripWs (collapseWs t.toList)).filter isAllowedChar =
      stripWs (collapseWs t.toList) := by
    apply List.filter_eq_self.mpr
    intro a ha
    rcases mem_collapseWs _ a (mem_stripWs ha) with h | h
    · rw [h]
      decide
    · exact ((sanOutChar_iff a).mp (hchars a h)).1
  have hlen2 : (stripWs (collapseWs t.toList)).length ≤ 64 :=
    le_trans (stripWs_length_le _)
      (le_trans (collapseWs_length_le _) hlen)
  have htrunc : truncateName (stripWs (collapseWs t.toList)) =
      stripWs (collapseWs t.toList) := by
    unfold truncateName MAX_NAME_LEN
    rw [if_neg]
    omega
  unfold sanitizePipeline nfcNormalize
  rw [cccf_filter_eq_self hchars, hfilter2, htrunc]

/-- Every sanitizer output is in one-pass normal form. -/
theorem make_safe_name_stage1 (name : Option String) :
    SanStage1 (make_safe_name name) := by
  have hunk : SanStage1 "Unknown" := ⟨by decide, by decide, by decide⟩
  rcases name with _ | s
  · exact hunk
  · simp only [make_safe_name]
    by_cases hs : (s == "") = true
    · rw [if_pos hs]
      exact hunk
    · rw [if_neg hs]
      by_cases hn : (sanitizePipeline s).isEmpty = true
      · rw [if_pos hn]
        exact hunk
      · rw [if_neg hn]
        refine ⟨?_, sanitizePipeline_length s, fun c hc =>
          sanitizePipeline_chars s c hc⟩
        intro h
        have h2 : (sanitizePipeline s).isEmpty = true := by
          have h3 := congrArg String.data h
          simp only at h3
          rw [h3]
          rfl
        exact hn h2


/-- A space-free list satisfies the no-adjacent-spaces chain. -/
theorem chain'_of_no_space {l : List Char} (h : ∀ c ∈ l, c ≠ ' ') :
    List.Chain' (fun a b => ¬(a = ' ' ∧ b = ' ')) l := by
  induction l with
  | nil => simp
  | cons a t ih =>
    rw [List.chain'_cons']
    refine ⟨?_, ih (fun c hc => h c (List.mem_cons_of_mem a hc))⟩
    intro x _ hcon
    exact h a (by simp) hcon.1

/-- A second sanitizer pass lands in the two-pass normal form. -/
theorem make_safe_name_stage2 {t : String} (h1 : SanStage1 t) :
    SanStage2 (make_safe_name (some t)) := by
  obtain ⟨hne, hlen, hchars⟩ := h1
  have hUnk : SanStage2 "Unknown" :=
    ⟨⟨by decide, by decide, by decide⟩, chain'_of_no_space (by decide),
      by decide, by decide⟩
  have hpipe : sanitizePipeline t = stripWs (collapseWs t.toList) :=
    sanitizePipeline_of_stage1 ⟨hne, hlen, hchars⟩
  simp only [make_safe_name]
  rw [if_neg (by simpa using hne)]
  by_cases hemp : (sanitizePipeline t).isEmpty = true
  · rw [if_pos hemp]
    exact hUnk
  · rw [if_neg hemp]
    refine ⟨⟨?_, sanitizePipeline_length t,
      fun c hc => sanitizePipeline_chars t c hc⟩, ?_, ?_, ?_⟩
    · intro h
      have h3 := congrArg String.data h
      simp only at h3
      exact hemp (by rw [h3]; rfl)
    · show List.Chain' _ (sanitizePipeline t)
      rw [hpipe]
      refine List.Chain'.imp ?_ (stripWs_chain' (collapseWs_chain' t.toList))
      intro a b hab hcon
      exact hab ⟨by rw [hcon.1]; decide, by rw [hcon.2]; decide⟩
    · show (sanitizePipeline t).head? ≠ some ' '
      intro hcon
      rw [hpipe] at hcon
      exact absurd (stripWs_head hcon) (by decide)
    · show (sanitizePipeline t).getLast? ≠ some ' '
      intro hcon
      rw [hpipe] at hcon
      exact absurd (stripWs_getLast hcon) (by decide)

/-- The sanitizer is the identity on the two-pass normal form. -/
theorem make_safe_name_stage2_fixed {t : String} (h2 : SanStage2 t) :
    make_safe_name (some t) = t := by
  obtain ⟨⟨hne, hlen, hchars⟩, hch, hhead, hlast⟩ := h2
  have hws : ∀ c ∈ t.toList, pyIsSpace c = true → c = ' ' := fun c hc =>
    ((sanOutChar_iff c).mp (hchars c hc)).2.2.2
  have hh : ∀ c, t.toList.head? = some c → pyIsSpace c = false := by
    intro c hc
    by_cases hp : pyIsSpace c = true
    · have h3 := hws c (List.mem_of_mem_head? (by rw [hc]; rfl)) hp
      rw [h3] at hc
      exact absurd hc hhead
    · simpa using hp
  have hl : ∀ c, t.toList.getLast? = some c → pyIsSpace c = false := by
    intro c hc
    by_cases hp : pyIsSpace c = true
    · have h3 := hws c (List.mem_of_mem_getLast? hc) hp
      rw [h3] at hc
      exact absurd hc hlast
    · simpa using hp
  have hpipe : sanitizePipeline t = t.toList := by
    rw [sanitizePipeline_of_stage1 ⟨hne, hlen, hchars⟩,
      collapseWs_eq_self t.toList hws hch, stripWs_eq_self hh hl]
  have hne2 : ¬(t.toList.isEmpty = true) := by
    intro h
    apply hne
    obtain ⟨d⟩ := t
    have h3 : d = [] := by simpa [List.isEmpty_iff] using h
    rw [h3]
  simp only [make_safe_name]
  rw [if_neg (by simpa using hne), hpipe]
  rw [if_neg hne2]
  rfl

/-- Counterexample to C9 as stated: the sanitizer maps "a *" to "a ", whose
last character is a space — removal of a disallowed character can leave
trailing (or leading) whitespace in the returned name. -/
theorem c9_counterexample :
    make_safe_name (some "a *") = "a " ∧
    "a ".toList.getLast? = some ' ' ∧ pyIsSpace ' ' = true :=
  ⟨by decide, by decide, by decide⟩

/-- C9 amended: `make_safe_name` is total, returns a non-empty string of at
most 64 characters containing no control or format characters, maps absent
or empty input to "Unknown", and falls back to "Unknown" whenever the
pipeline output is empty — but the result may carry leading or trailing
spaces exposed by disallowed-character removal. -/
theorem c9_sanitizer_total (name : Option String) :
    make_safe_name name ≠ "" ∧
    (make_safe_name name).toList.length ≤ 64 ∧
    (∀ c ∈ (make_safe_name name).toList,
      isCcChar c = false ∧ isCfChar c = false) ∧
    (name = none ∨ name = some "" → make_safe_name name = "Unknown") ∧
    (∀ s, name = some s → sanitizePipeline s = [] →
      make_safe_name name = "Unknown") := by
  obtain ⟨hne, hlen, hchars⟩ := make_safe_name_stage1 name
  refine ⟨hne, hlen, ?_, ?_, ?_⟩
  · intro c hc
    have h2 := (sanOutChar_iff c).mp (hchars c hc)
    exact ⟨h2.2.1, h2.2.2.1⟩
  · rintro (h | h) <;> rw [h] <;> simp [make_safe_name]
  · intro s hname hpipe
    rw [hname]
    simp only [make_safe_name]
    by_cases hs : (s == "") = true
    · rw [if_pos hs]
    · rw [if_neg hs, hpipe]
      rfl

/-- Witness for C9 amended: empty input and an all-disallowed input both
yield "Unknown". -/
theorem c9_sanitizer_total_witness :
    make_safe_name (some "") = "Unknown" ∧
    make_safe_name (some "**") = "Unknown" :=
  ⟨(c9_sanitizer_total (some "")).2.2.2.1 (Or.inr rfl),
   (c9_sanitizer_total (some "**")).2.2.2.2 "**" rfl (by decide)⟩

/-- Counterexample to C10 as stated: sanitizing "a * b" gives "a  b" (the
removed "*" leaves two adjacent spaces), and re-sanitizing collapses them to
"a b", so one application is not idempotent. -/
theorem c10_counterexample :
    make_safe_name (some (make_safe_name (some "a * b"))) ≠
      make_safe_name (some "a * b") := by decide

/-- C10 amended: the sanitizer stabilizes after two applications — a third
application never changes the result (a single application is not
idempotent, as removal of disallowed characters can expose whitespace runs
that only the next pass collapses). -/
theorem c10_sanitizer_stabilizes (name : Option String) :
    make_safe_name (some (make_safe_name (some (make_safe_name name)))) =
      make_safe_name (some (make_safe_name name)) :=
  make_safe_name_stage2_fixed (make_safe_name_stage2
    (make_safe_name_stage1 name))


/-! ## Lemmas for trace-level milestone exactness -/

theorem distinctPlayers_congr {st1 st2 : Store}
    (h : st1.captures = st2.captures) (s : String) :
    distinctPlayers st1 s = distinctPlayers st2 s := by
  unfold distinctPlayers speciesRows
  rw [h]

theorem shinyRows_congr {st1 st2 : Store}
    (h : st1.captures = st2.captures) (s : String) :
    shinyRows st1 s = shinyRows st2 s := by
  unfold shinyRows
  rw [h]

theorem dedup_length_le_append (l1 l2 : List String) :
    l1.dedup.length ≤ (l1 ++ l2).dedup.length := by
  rw [← List.card_toFinset, ← List.card_toFinset]
  apply Finset.card_le_card
  intro a ha
  rw [List.mem_toFinset] at ha ⊢
  exact List.mem_append_left l2 ha

theorem distinctPlayers_insert_le (st : Store) (sid sp : String) (sh : Bool)
    (t s : String) :
    distinctPlayers st s ≤
      distinctPlayers (insertCaptureIfAbsent st sid sp sh t).fst s := by
  unfold insertCaptureIfAbsent
  cases hf : findCapture st sid sp with
  | some r => exact le_refl _
  | none =>
    show distinctPlayers st s ≤
      distinctPlayers ⟨st.players, st.captures ++ [⟨sid, sp, sh, t⟩]⟩ s
    unfold distinctPlayers speciesRows
    simp only [List.filter_append, List.map_append]
    exact dedup_length_le_append _ _

theorem shinyRows_insert_le (st : Store) (sid sp : String) (sh : Bool)
    (t s : String) :
    shinyRows st s ≤ shinyRows (insertCaptureIfAbsent st sid sp sh t).fst s := by
  unfold insertCaptureIfAbsent
  cases hf : findCapture st sid sp with
  | some r => exact le_refl _
  | none =>
    show shinyRows st s ≤
      shinyRows ⟨st.players, st.captures ++ [⟨sid, sp, sh, t⟩]⟩ s
    unfold shinyRows
    simp only [List.filter_append, List.length_append]
    exact Nat.le_add_right _ _

theorem upgrade_map_speciesSid (sid2 sp2 s : String) : ∀ l : List CaptureRow,
    ((l.map (fun r =>
      if r.steam_id == sid2 && r.pokemon_name == sp2 && r.shiny == false
      then { r with shiny := true } else r)).filter
        (fun r => r.pokemon_name == s)).map (fun r => r.steam_id) =
    (l.filter (fun r => r.pokemon_name == s)).map (fun r => r.steam_id)
  | [] => rfl
  | r :: t => by
    have hsp : (if r.steam_id == sid2 && r.pokemon_name == sp2 &&
        r.shiny == false then { r with shiny := true } else r).pokemon_name =
        r.pokemon_name := by
      split <;> rfl
    have hsid : (if r.steam_id == sid2 && r.pokemon_name == sp2 &&
        r.shiny == false then { r with shiny := true } else r).steam_id =
        r.steam_id := by
      split <;> rfl
    simp only [List.map_cons, List.filter_cons, hsp]
    by_cases hc : (r.pokemon_name == s) = true
    · simp only [hc, if_true, List.map_cons, hsid]
      rw [upgrade_map_speciesSid sid2 sp2 s t]
    · simp only [hc, Bool.false_eq_true, if_false]
      exact upgrade_map_speciesSid sid2 sp2 s t

theorem distinctPlayers_upgrade (st : Store) (sid2 sp2 s : String) :
    distinctPlayers (upgradeToShiny st sid2 sp2).fst s =
      distinctPlayers st s := by
  unfold distinctPlayers speciesRows upgradeToShiny
  simp only
  rw [upgrade_map_speciesSid]


theorem countP_le_countP_map {g : CaptureRow → CaptureRow}
    {p : CaptureRow → Bool} (hp : ∀ a, p a = true → p (g a) = true) :
    ∀ l : List CaptureRow, l.countP p ≤ (l.map g).countP p
  | [] => le_refl _
  | a :: t => by
    simp only [List.map_cons, List.countP_cons]
    have hle : (if p a then 1 else 0) ≤ (if p (g a) then 1 else 0) := by
      by_cases hc : p a = true
      · simp [hc, hp a hc]
      · simp [hc]
    exact Nat.add_le_add (countP_le_countP_map hp t) hle

theorem shinyRows_upgrade_le (st : Store) (sid2 sp2 s : String) :
    shinyRows st s ≤ shinyRows (upgradeToShiny st sid2 sp2).fst s := by
  unfold shinyRows upgradeToShiny
  simp only
  rw [← List.countP_eq_length_filter, ← List.countP_eq_length_filter]
  apply countP_le_countP_map
  intro a ha
  simp only [Bool.and_eq_true, beq_iff_eq] at ha
  split
  · simp [ha.1]
  · simp [ha.1, ha.2]

theorem countP_map_upgrade_eq (sid s : String) : ∀ l : List CaptureRow,
    (l.map (fun r =>
      if r.steam_id == sid && r.pokemon_name == s && r.shiny == false
      then { r with shiny := true } else r)).countP
        (fun r => r.pokemon_name == s && r.shiny) =
    l.countP (fun r => r.pokemon_name == s && r.shiny) +
      l.countP (fun r =>
        r.steam_id == sid && r.pokemon_name == s && r.shiny == false)
  | [] => rfl
  | a :: t => by
    simp only [List.map_cons, List.countP_cons]
    rw [countP_map_upgrade_eq sid s t]
    by_cases hc : (a.steam_id == sid && a.pokemon_name == s &&
        a.shiny == false) = true
    · have h3 := hc
      simp only [Bool.and_eq_true, beq_iff_eq] at h3
      obtain ⟨⟨hsid, hname⟩, hsh⟩ := h3
      rw [if_pos hc, hc]
      simp [hname, hsh]
      omega
    · have hc2 : (a.steam_id == sid && a.pokemon_name == s &&
          a.shiny == false) = false := by simpa using hc
      rw [if_neg hc, hc2]
      simp only [Bool.false_eq_true, if_false]
      omega

theorem shinyRows_upgrade_eq (st : Store) (sid s : String) :
    shinyRows (upgradeToShiny st sid s).fst s =
      shinyRows st s + (upgradeToShiny st sid s).snd := by
  unfold shinyRows upgradeToShiny
  simp only
  rw [← List.countP_eq_length_filter, ← List.countP_eq_length_filter,
    ← List.countP_eq_length_filter, countP_map_upgrade_eq]


/-- The store after `_process_capture` is either unchanged or the result of
the insert-then-maybe-upgrade write path. -/
theorem capturePostStore_cases (req : CaptureReq) (now : String)
    (st : Store) :
    capturePostStore req now st = st ∨
    (isIgnoredSpecies req.pokemon_name = false ∧
     playerExists st req.steam_id = true ∧
     existingShortCircuit (findCapture st req.steam_id req.pokemon_name)
       req.shiny = false ∧
     capturePostStore req now st =
       (if req.shiny = true then
          (upgradeToShiny (insertCaptureIfAbsent st req.steam_id
            req.pokemon_name req.shiny (match req.captured_at with
              | some t => t
              | none => now)).fst req.steam_id req.pokemon_name).fst
        else (insertCaptureIfAbsent st req.steam_id req.pokemon_name
          req.shiny (match req.captured_at with
            | some t => t
            | none => now)).fst)) := by
  by_cases hmega : isIgnoredSpecies req.pokemon_name = true
  · left
    unfold capturePostStore
    simp only [processCapture, hmega, if_true]
  · have hmega2 : isIgnoredSpecies req.pokemon_name = false := by
      simpa using hmega
    by_cases hpl : playerExists st req.steam_id = true
    · by_cases hsc : existingShortCircuit
          (findCapture st req.steam_id req.pokemon_name) req.shiny = true
      · left
        unfold capturePostStore
        simp only [processCapture, hmega2, hpl, hsc, Bool.false_eq_true,
          Bool.true_eq_false, if_false, if_true]
      · have hsc2 : existingShortCircuit
            (findCapture st req.steam_id req.pokemon_name) req.shiny =
            false := by simpa using hsc
        right
        refine ⟨hmega2, hpl, hsc2, ?_⟩
        unfold capturePostStore
        simp only [processCapture, hmega2, hpl, hsc2, Bool.false_eq_true,
          Bool.true_eq_false, if_false]
        by_cases hq : req.shiny = true
        · simp only [hq, if_true]
        · simp only [hq, Bool.false_eq_true, if_false]
    · have hpl2 : playerExists st req.steam_id = false := by simpa using hpl
      left
      unfold capturePostStore
      simp only [processCapture, hmega2, hpl2, Bool.false_eq_true, if_false,
        if_true]

theorem distinctPlayers_capturePost_le (req : CaptureReq) (now : String)
    (st : Store) (s : String) :
    distinctPlayers st s ≤ distinctPlayers (capturePostStore req now st) s := by
  rcases capturePostStore_cases req now st with h | ⟨_, _, _, h⟩
  · rw [h]
  · rw [h]
    by_cases hq : req.shiny = true
    · rw [if_pos hq, distinctPlayers_upgrade]
      exact distinctPlayers_insert_le st req.steam_id req.pokemon_name
        req.shiny _ s
    · rw [if_neg hq]
      exact distinctPlayers_insert_le st req.steam_id req.pokemon_name
        req.shiny _ s

theorem shinyRows_capturePost_le (req : CaptureReq) (now : String)
    (st : Store) (s : String) :
    shinyRows st s ≤ shinyRows (capturePostStore req now st) s := by
  rcases capturePostStore_cases req now st with h | ⟨_, _, _, h⟩
  · rw [h]
  · rw [h]
    by_cases hq : req.shiny = true
    · rw [if_pos hq]
      exact le_trans
        (shinyRows_insert_le st req.steam_id req.pokemon_name req.shiny _ s)
        (shinyRows_upgrade_le _ req.steam_id req.pokemon_name s)
    · rw [if_neg hq]
      exact shinyRows_insert_le st req.steam_id req.pokemon_name req.shiny _ s

/-- The step store of a Capture intent is the capture post store. -/
theorem stepIntent_capture_fst (st : Store) (req : CaptureReq)
    (now : String) :
    (stepIntent st (Intent.capture req now)).fst =
      capturePostStore req now st := by
  show (match processCapture req now st with
    | Except.ok r => (r.snd, Outcome.captured r.fst.fst r.fst.snd)
    | Except.error e => (st, Outcome.failed e)).fst =
    match processCapture req now st with
    | Except.ok r => r.snd
    | Except.error _ => st
  rcases hp : processCapture req now st with e | r <;> rfl

theorem distinctPlayers_step_le (st : Store) (it : Intent) (s : String)
    (h : it.isUncapture = false) :
    distinctPlayers st s ≤ distinctPlayers (stepIntent st it).fst s := by
  cases it with
  | register req now =>
    have hc : ((stepIntent st (Intent.register req now)).fst).captures =
        st.captures := rfl
    rw [distinctPlayers_congr hc s]
  | capture req now =>
    rw [stepIntent_capture_fst]
    exact distinctPlayers_capturePost_le req now st s
  | uncapture req => exact absurd h (by simp [Intent.isUncapture])

theorem shinyRows_step_le (st : Store) (it : Intent) (s : String)
    (h : it.isUncapture = false) :
    shinyRows st s ≤ shinyRows (stepIntent st it).fst s := by
  cases it with
  | register req now =>
    have hc : ((stepIntent st (Intent.register req now)).fst).captures =
        st.captures := rfl
    rw [shinyRows_congr hc s]
  | capture req now =>
    rw [stepIntent_capture_fst]
    exact shinyRows_capturePost_le req now st s
  | uncapture req => exact absurd h (by simp [Intent.isUncapture])

theorem distinctPlayers_run_le (s : String) :
    ∀ (l : List Intent) (st : Store),
    (∀ it ∈ l, it.isUncapture = false) →
    distinctPlayers st s ≤ distinctPlayers (storeAfter st l) s
  | [], st, _ => le_refl _
  | it :: t, st, h => by
    have h1 := distinctPlayers_step_le st it s (h it (by simp))
    have h2 := distinctPlayers_run_le s t (stepIntent st it).fst
      (fun x hx => h x (List.mem_cons_of_mem it hx))
    unfold storeAfter at h2 ⊢
    simp only [List.foldl_cons]
    exact le_trans h1 h2

theorem shinyRows_run_le (s : String) :
    ∀ (l : List Intent) (st : Store),
    (∀ it ∈ l, it.isUncapture = false) →
    shinyRows st s ≤ shinyRows (storeAfter st l) s
  | [], st, _ => le_refl _
  | it :: t, st, h => by
    have h1 := shinyRows_step_le st it s (h it (by simp))
    have h2 := shinyRows_run_le s t (stepIntent st it).fst
      (fun x hx => h x (List.mem_cons_of_mem it hx))
    unfold storeAfter at h2 ⊢
    simp only [List.foldl_cons]
    exact le_trans h1 h2


theorem WF_insert (st : Store) (sid sp : String) (sh : Bool) (t : String)
    (h : WF st) : WF (insertCaptureIfAbsent st sid sp sh t).fst := by
  unfold insertCaptureIfAbsent
  cases hf : findCapture st sid sp with
  | some r => exact h
  | none =>
    show WF ⟨st.players, st.captures ++ [⟨sid, sp, sh, t⟩]⟩
    unfold WF at h ⊢
    rw [List.pairwise_append]
    refine ⟨h, List.pairwise_singleton _ _, ?_⟩
    intro a ha b hb
    simp only [List.mem_singleton] at hb
    rw [hb]
    intro hcon
    unfold findCapture at hf
    have h2 := List.find?_eq_none.mp hf a ha
    apply h2
    simp only [Bool.and_eq_true, beq_iff_eq]
    exact ⟨hcon.1, hcon.2⟩

theorem WF_upgrade (st : Store) (sid sp : String) (h : WF st) :
    WF (upgradeToShiny st sid sp).fst := by
  unfold WF at h ⊢
  show List.Pairwise _ (st.captures.map (fun r =>
    if r.steam_id == sid && r.pokemon_name == sp && r.shiny == false
    then { r with shiny := true } else r))
  refine List.Pairwise.map _ ?_ h
  intro a b hab hcon
  have hga : ∀ r : CaptureRow,
      (if r.steam_id == sid && r.pokemon_name == sp && r.shiny == false
        then { r with shiny := true } else r).steam_id = r.steam_id ∧
      (if r.steam_id == sid && r.pokemon_name == sp && r.shiny == false
        then { r with shiny := true } else r).pokemon_name =
        r.pokemon_name := by
    intro r
    constructor <;> split <;> rfl
  refine hab ⟨?_, ?_⟩
  · rw [← (hga a).1, ← (hga b).1]
    exact hcon.1
  · rw [← (hga a).2, ← (hga b).2]
    exact hcon.2

theorem processUncapture_ok {req : UncaptureReq} {st : Store} {d : Nat}
    {st2 : Store} (h : processUncapture req st = Except.ok (d, st2)) :
    st2 = ⟨st.players, st.captures.filter (fun r =>
      !(r.steam_id == req.steam_id &&
        r.pokemon_name == req.pokemon_name))⟩ := by
  by_cases hpl : playerExists st req.steam_id = true
  · simp only [processUncapture, deleteCapture, hpl, Bool.true_eq_false,
      if_false, Except.ok.injEq, Prod.mk.injEq] at h
    exact h.2.symm
  · have hpl2 : playerExists st req.steam_id = false := by simpa using hpl
    simp only [processUncapture, hpl2, if_true] at h
    exact Except.noConfusion h

theorem stepIntent_capture_eq (st : Store) (req : CaptureReq)
    (now : String) :
    stepIntent st (Intent.capture req now) =
      match processCapture req now st with
      | Except.ok r => (r.snd, Outcome.captured r.fst.fst r.fst.snd)
      | Except.error e => (st, Outcome.failed e) := rfl

theorem stepIntent_uncapture_eq (st : Store) (req : UncaptureReq) :
    stepIntent st (Intent.uncapture req) =
      match processUncapture req st with
      | Except.ok r => (r.snd, Outcome.uncaptured r.fst)
      | Except.error e => (st, Outcome.failed e) := rfl

theorem WF_step (st : Store) (it : Intent) (h : WF st) :
    WF (stepIntent st it).fst := by
  cases it with
  | register req now =>
    have hc : ((stepIntent st (Intent.register req now)).fst).captures =
        st.captures := rfl
    unfold WF
    rw [hc]
    exact h
  | capture req now =>
    rw [stepIntent_capture_fst]
    rcases capturePostStore_cases req now st with heq | ⟨_, _, _, heq⟩
    · rw [heq]
      exact h
    · rw [heq]
      by_cases hq : req.shiny = true
      · rw [if_pos hq]
        exact WF_upgrade _ _ _ (WF_insert st _ _ _ _ h)
      · rw [if_neg hq]
        exact WF_insert st _ _ _ _ h
  | uncapture req =>
    rw [stepIntent_uncapture_eq]
    rcases hp : processUncapture req st with e | r
    · exact h
    · rcases r with ⟨d, st2⟩
      have h2 := processUncapture_ok hp
      show WF st2
      rw [h2]
      unfold WF
      exact List.Pairwise.sublist (List.filter_sublist _) h

theorem WF_run : ∀ (l : List Intent) (st : Store), WF st →
    WF (storeAfter st l)
  | [], st, h => h
  | it :: t, st, h => by
    unfold storeAfter
    simp only [List.foldl_cons]
    exact WF_run t (stepIntent st it).fst (WF_step st it h)

/-- An ok result with the "ignored" body comes only from the mega/gmax
branch, which leaves the store unchanged. -/
theorem processCapture_ignored_inv {req : CaptureReq} {now : String}
    {st : Store} {reason : String} {status : Nat} {st2 : Store}
    (h : processCapture req now st =
      Except.ok ((CaptureBody.ignored reason, status), st2)) :
    st2 = st := by
  by_cases hmega : isIgnoredSpecies req.pokemon_name = true
  · simp only [processCapture, hmega, if_true, Except.ok.injEq,
      Prod.mk.injEq] at h
    exact h.2.symm
  · have hmega2 : isIgnoredSpecies req.pokemon_name = false := by
      simpa using hmega
    exfalso
    by_cases hpl : playerExists st req.steam_id = true
    · by_cases hsc : existingShortCircuit
          (findCapture st req.steam_id req.pokemon_name) req.shiny = true
      · simp only [processCapture, hmega2, hpl, hsc, Bool.false_eq_true,
          Bool.true_eq_false, if_false, if_true, Except.ok.injEq,
          Prod.mk.injEq] at h
        exact CaptureBody.noConfusion h.1.1
      · have hsc2 : existingShortCircuit
            (findCapture st req.steam_id req.pokemon_name) req.shiny =
            false := by simpa using hsc
        simp only [processCapture, hmega2, hpl, hsc2, Bool.false_eq_true,
          Bool.true_eq_false, if_false, Except.ok.injEq, Prod.mk.injEq] at h
        exact CaptureBody.noConfusion h.1.1
    · have hpl2 : playerExists st req.steam_id = false := by simpa using hpl
      simp only [processCapture, hmega2, hpl2, Bool.false_eq_true, if_false,
        if_true] at h
      exact Except.noConfusion h

/-- Inversion for an ok result carrying flags: either the no-op
short-circuit, or the insert-then-maybe-upgrade write path with the exact
flag formulas over the pre-write snapshot. -/
theorem processCapture_flags_inv {req : CaptureReq} {now : String}
    {st : Store} {f : CaptureFlags} {status : Nat} {st2 : Store}
    (h : processCapture req now st =
      Except.ok ((CaptureBody.flags f, status), st2)) :
    (f = noopFlags ∧ st2 = st) ∨
    (isIgnoredSpecies req.pokemon_name = false ∧
     playerExists st req.steam_id = true ∧
     existingShortCircuit (findCapture st req.steam_id req.pokemon_name)
       req.shiny = false ∧
     st2 = (if req.shiny = true then
         (upgradeToShiny (insertCaptureIfAbsent st req.steam_id
           req.pokemon_name req.shiny (match req.captured_at with
             | some t => t
             | none => now)).fst req.steam_id req.pokemon_name).fst
       else (insertCaptureIfAbsent st req.steam_id req.pokemon_name
         req.shiny (match req.captured_at with
           | some t => t
           | none => now)).fst) ∧
     f = ⟨(insertCaptureIfAbsent st req.steam_id req.pokemon_name req.shiny
         (match req.captured_at with
           | some t => t
           | none => now)).snd,
       decide (0 < (if req.shiny = true then
           (upgradeToShiny (insertCaptureIfAbsent st req.steam_id
             req.pokemon_name req.shiny (match req.captured_at with
               | some t => t
               | none => now)).fst req.steam_id req.pokemon_name).snd
         else 0)),
       (insertCaptureIfAbsent st req.steam_id req.pokemon_name req.shiny
         (match req.captured_at with
           | some t => t
           | none => now)).snd &&
         decide (distinctPlayers st req.pokemon_name = 0),
       req.shiny && decide (shinyRows st req.pokemon_name = 0) &&
         ((insertCaptureIfAbsent st req.steam_id req.pokemon_name req.shiny
           (match req.captured_at with
             | some t => t
             | none => now)).snd ||
          decide (0 < (if req.shiny = true then
             (upgradeToShiny (insertCaptureIfAbsent st req.steam_id
               req.pokemon_name req.shiny (match req.captured_at with
                 | some t => t
                 | none => now)).fst req.steam_id req.pokemon_name).snd
           else 0)))⟩) := by
  by_cases hmega : isIgnoredSpecies req.pokemon_name = true
  · exfalso
    simp only [processCapture, hmega, if_true, Except.ok.injEq,
      Prod.mk.injEq] at h
    exact CaptureBody.noConfusion h.1.1
  · have hmega2 : isIgnoredSpecies req.pokemon_name = false := by
      simpa using hmega
    by_cases hpl : playerExists st req.steam_id = true
    · by_cases hsc : existingShortCircuit
          (findCapture st req.steam_id req.pokemon_name) req.shiny = true
      · left
        simp only [processCapture, hmega2, hpl, hsc, Bool.false_eq_true,
          Bool.true_eq_false, if_false, if_true, Except.ok.injEq,
          Prod.mk.injEq, CaptureBody.flags.injEq] at h
        exact ⟨h.1.1.symm, h.2.symm⟩
      · have hsc2 : existingShortCircuit
            (findCapture st req.steam_id req.pokemon_name) req.shiny =
            false := by simpa using hsc
        right
        refine ⟨hmega2, hpl, hsc2, ?_⟩
        simp only [processCapture, hmega2, hpl, hsc2, Bool.false_eq_true,
          Bool.true_eq_false, if_false, Except.ok.injEq, Prod.mk.injEq,
          CaptureBody.flags.injEq] at h
        obtain ⟨⟨hf, hstat⟩, hst⟩ := h
        constructor
        · rw [← hst]
          by_cases hq : req.shiny = true
          · simp only [hq, if_true]
          · simp only [hq, Bool.false_eq_true, if_false]
        · rw [← hf]
          by_cases hq : req.shiny = true
          · simp only [hq, if_true]
          · simp only [hq, Bool.false_eq_true, if_false]
    · have hpl2 : playerExists st req.steam_id = false := by simpa using hpl
      exfalso
      simp only [processCapture, hmega2, hpl2, Bool.false_eq_true, if_false,
        if_true] at h
      exact Except.noConfusion h

theorem outcome_captured_inv {st : Store} {req : CaptureReq} {now : String}
    {body : CaptureBody} {status : Nat}
    (h : (stepIntent st (Intent.capture req now)).snd =
      Outcome.captured body status) :
    processCapture req now st = Except.ok ((body, status),
      (stepIntent st (Intent.capture req now)).fst) := by
  rcases hp : processCapture req now st with e | r
  · exfalso
    rw [stepIntent_capture_eq, hp] at h
    exact Outcome.noConfusion h
  · rw [stepIntent_capture_eq, hp] at h
    obtain ⟨hb, hs⟩ := Outcome.captured.inj h
    rw [stepIntent_capture_fst]
    unfold capturePostStore
    rw [hp, ← hb, ← hs]


theorem insert_snd_true {st : Store} {sid sp : String} {sh : Bool}
    {t : String} (h : (insertCaptureIfAbsent st sid sp sh t).snd = true) :
    findCapture st sid sp = none := by
  cases hfind : findCapture st sid sp with
  | some r =>
    exfalso
    unfold insertCaptureIfAbsent at h
    rw [hfind] at h
    simp at h
  | none => rfl

theorem insert_fst_of_none {st : Store} {sid sp : String} {sh : Bool}
    {t : String} (hfind : findCapture st sid sp = none) :
    (insertCaptureIfAbsent st sid sp sh t).fst =
      ⟨st.players, st.captures ++ [⟨sid, sp, sh, t⟩]⟩ := by
  unfold insertCaptureIfAbsent
  rw [hfind]

theorem insert_fst_of_some {st : Store} {sid sp : String} {sh : Bool}
    {t : String} {r : CaptureRow}
    (hfind : findCapture st sid sp = some r) :
    (insertCaptureIfAbsent st sid sp sh t).fst = st := by
  unfold insertCaptureIfAbsent
  rw [hfind]

theorem insert_snd_of_some {st : Store} {sid sp : String} {sh : Bool}
    {t : String} {r : CaptureRow}
    (hfind : findCapture st sid sp = some r) :
    (insertCaptureIfAbsent st sid sp sh t).snd = false := by
  unfold insertCaptureIfAbsent
  rw [hfind]

theorem upgrade_snd_eq (st : Store) (sid sp : String) :
    (upgradeToShiny st sid sp).snd =
      (st.captures.filter (fun r => r.steam_id == sid &&
        r.pokemon_name == sp && r.shiny == false)).length := rfl

theorem speciesRows_eq_nil_of_distinct_zero {st : Store} {s : String}
    (h0 : distinctPlayers st s = 0) :
    st.captures.filter (fun r => r.pokemon_name == s) = [] := by
  unfold distinctPlayers speciesRows at h0
  have h1 := List.length_eq_zero.mp h0
  have h2 := (List.dedup_eq_nil _).mp h1
  exact List.map_eq_nil.mp h2

theorem distinctPlayers_append_one {st : Store} {s : String}
    (h0 : distinctPlayers st s = 0) (sid : String) (sh : Bool)
    (t : String) :
    distinctPlayers ⟨st.players, st.captures ++ [⟨sid, s, sh, t⟩]⟩ s = 1 := by
  have hfil := speciesRows_eq_nil_of_distinct_zero h0
  unfold distinctPlayers speciesRows
  simp only [List.filter_append, hfil, List.nil_append]
  simp [List.filter]

theorem distinctPlayers_append_other {st : Store} {s sp : String}
    (hne : sp ≠ s) (sid : String) (sh : Bool) (t : String) :
    distinctPlayers ⟨st.players, st.captures ++ [⟨sid, sp, sh, t⟩]⟩ s =
      distinctPlayers st s := by
  unfold distinctPlayers speciesRows
  simp only [List.filter_append]
  have hb : (sp == s) = false := beq_eq_false_iff_ne.mpr hne
  have hfil : List.filter (fun r : CaptureRow => r.pokemon_name == s)
      [⟨sid, sp, sh, t⟩] = [] := by
    simp [List.filter, hb]
  rw [hfil, List.append_nil]

theorem shinyRows_append (st : Store) (sid sp : String) (sh : Bool)
    (t s : String) :
    shinyRows ⟨st.players, st.captures ++ [⟨sid, sp, sh, t⟩]⟩ s =
      shinyRows st s + (if (sp == s && sh) = true then 1 else 0) := by
  unfold shinyRows
  simp only [List.filter_append, List.length_append]
  congr 1
  by_cases hc : (sp == s && sh) = true
  · rw [if_pos hc]
    simp [List.filter, hc]
  · rw [if_neg hc]
    have hc2 : (sp == s && sh) = false := by simpa using hc
    simp [List.filter, hc2]

theorem filter_hit_le_one {l : List CaptureRow}
    (hwf : l.Pairwise (fun a b =>
      ¬(a.steam_id = b.steam_id ∧ a.pokemon_name = b.pokemon_name)))
    (sid sp : String) :
    (l.filter (fun r => r.steam_id == sid && r.pokemon_name == sp &&
      r.shiny == false)).length ≤ 1 := by
  have hp := List.Pairwise.filter
    (fun r : CaptureRow => r.steam_id == sid && r.pokemon_name == sp &&
      r.shiny == false) hwf
  have hmem : ∀ r ∈ l.filter (fun r =>
      r.steam_id == sid && r.pokemon_name == sp && r.shiny == false),
      r.steam_id = sid ∧ r.pokemon_name = sp := by
    intro r hr
    have hr2 := List.of_mem_filter hr
    simp only [Bool.and_eq_true, beq_iff_eq] at hr2
    exact ⟨hr2.1.1, hr2.1.2⟩
  rcases hl : l.filter (fun r =>
      r.steam_id == sid && r.pokemon_name == sp && r.shiny == false) with
    _ | ⟨a, _ | ⟨b, t⟩⟩
  · rw [hl]
    simp
  · rw [hl]
    simp
  · exfalso
    rw [hl] at hp hmem
    have hab := (List.pairwise_cons.mp hp).1 b (by simp)
    have ha := hmem a (by simp)
    have hb := hmem b (by simp)
    exact hab ⟨ha.1.trans hb.1.symm, ha.2.trans hb.2.symm⟩

/-- At a step whose result has `first_overall = true`, the species'
distinct-player count goes from 0 to exactly 1. -/
theorem step_firstOverall_counts {req : CaptureReq} {now : String}
    {st : Store} {f : CaptureFlags} {status : Nat} {st2 : Store}
    (h : processCapture req now st =
      Except.ok ((CaptureBody.flags f, status), st2))
    (hfo : f.first_overall = true) :
    distinctPlayers st req.pokemon_name = 0 ∧
    distinctPlayers st2 req.pokemon_name = 1 := by
  rcases processCapture_flags_inv h with ⟨hf, _⟩ | ⟨_, _, _, hst2, hf⟩
  · rw [hf] at hfo
    exact absurd hfo (by decide)
  · rw [hf] at hfo
    simp only [Bool.and_eq_true, decide_eq_true_eq] at hfo
    obtain ⟨hins, hpre⟩ := hfo
    refine ⟨hpre, ?_⟩
    have hfind := insert_snd_true hins
    by_cases hq : req.shiny = true
    · rw [hst2, if_pos hq, distinctPlayers_upgrade,
        insert_fst_of_none hfind]
      exact distinctPlayers_append_one hpre _ _ _
    · rw [hst2, if_neg hq, insert_fst_of_none hfind]
      exact distinctPlayers_append_one hpre _ _ _

/-- At a step whose result has `first_shiny = true`, the species' shiny-row
count goes from 0 to exactly 1 (uniqueness of the pair row is needed to rule
out a multi-row upgrade). -/
theorem step_firstShiny_counts {req : CaptureReq} {now : String}
    {st : Store} {f : CaptureFlags} {status : Nat} {st2 : Store}
    (hwf : WF st)
    (h : processCapture req now st =
      Except.ok ((CaptureBody.flags f, status), st2))
    (hfs : f.first_shiny = true) :
    shinyRows st req.pokemon_name = 0 ∧
    shinyRows st2 req.pokemon_name = 1 := by
  rcases processCapture_flags_inv h with ⟨hf, _⟩ | ⟨_, _, hsc, hst2, hf⟩
  · rw [hf] at hfs
    exact absurd hfs (by decide)
  · rw [hf] at hfs
    simp only [Bool.and_eq_true, decide_eq_true_eq, Bool.or_eq_true] at hfs
    obtain ⟨⟨hsh, hpre⟩, hins_or⟩ := hfs
    refine ⟨hpre, ?_⟩
    rw [hst2, if_pos hsh, shinyRows_upgrade_eq]
    cases hfind : findCapture st req.steam_id req.pokemon_name with
    | none =>
      rw [insert_fst_of_none hfind, shinyRows_append, upgrade_snd_eq]
      have hfil : (⟨st.players, st.captures ++
          [⟨req.steam_id, req.pokemon_name, req.shiny,
            match req.captured_at with
            | some t => t
            | none => now⟩]⟩ : Store).captures.filter
          (fun r => r.steam_id == req.steam_id &&
            r.pokemon_name == req.pokemon_name && r.shiny == false) =
          [] := by
        simp only [List.filter_append]
        have h1 : st.captures.filter (fun r =>
            r.steam_id == req.steam_id &&
            r.pokemon_name == req.pokemon_name && r.shiny == false) = [] := by
          rw [List.filter_eq_nil]
          intro a ha
          have h2 := List.find?_eq_none.mp hfind a ha
          intro hcon
          apply h2
          simp only [Bool.and_eq_true] at hcon
          simp only [Bool.and_eq_true]
          exact hcon.1
        rw [h1, List.nil_append]
        simp [List.filter, hsh]
      rw [hfil]
      simp [hsh, hpre]
    | some r0 =>
      rw [insert_fst_of_some hfind, upgrade_snd_eq]
      have hr0mem : r0 ∈ st.captures := findCapture_mem hfind
      obtain ⟨hr0sid, hr0sp⟩ := findCapture_matches hfind
      have hr0sh : r0.shiny = false := by
        rw [hfind] at hsc
        unfold existingShortCircuit at hsc
        rw [hsh] at hsc
        simpa using hsc
      have hle := filter_hit_le_one hwf req.steam_id req.pokemon_name
      have hmem2 : r0 ∈ st.captures.filter (fun r =>
          r.steam_id == req.steam_id && r.pokemon_name == req.pokemon_name &&
          r.shiny == false) := by
        apply List.mem_filter.mpr
        refine ⟨hr0mem, ?_⟩
        simp [hr0sid, hr0sp, hr0sh]
      have hge : 0 < (st.captures.filter (fun r =>
          r.steam_id == req.steam_id && r.pokemon_name == req.pokemon_name &&
          r.shiny == false)).length :=
        List.length_pos.mpr (List.ne_nil_of_mem hmem2)
      omega


theorem insert_snd_of_none {st : Store} {sid sp : String} {sh : Bool}
    {t : String} (hfind : findCapture st sid sp = none) :
    (insertCaptureIfAbsent st sid sp sh t).snd = true := by
  unfold insertCaptureIfAbsent
  rw [hfind]

theorem countP_map_upgrade_other (sid sp2 s : String) (hne : sp2 ≠ s) :
    ∀ l : List CaptureRow,
    (l.map (fun r =>
      if r.steam_id == sid && r.pokemon_name == sp2 && r.shiny == false
      then { r with shiny := true } else r)).countP
        (fun r => r.pokemon_name == s && r.shiny) =
    l.countP (fun r => r.pokemon_name == s && r.shiny)
  | [] => rfl
  | a :: t => by
    simp only [List.map_cons, List.countP_cons]
    rw [countP_map_upgrade_other sid sp2 s hne t]
    congr 1
    by_cases hc : (a.steam_id == sid && a.pokemon_name == sp2 &&
        a.shiny == false) = true
    · have h3 := hc
      simp only [Bool.and_eq_true, beq_iff_eq] at h3
      obtain ⟨⟨_, hname⟩, _⟩ := h3
      rw [if_pos hc]
      have hb : (sp2 == s) = false := beq_eq_false_iff_ne.mpr hne
      simp [hname, hb]
    · rw [if_neg hc]

theorem shinyRows_upgrade_other {sp2 s : String} (hne : sp2 ≠ s)
    (st : Store) (sid : String) :
    shinyRows (upgradeToShiny st sid sp2).fst s = shinyRows st s := by
  unfold shinyRows upgradeToShiny
  simp only
  rw [← List.countP_eq_length_filter, ← List.countP_eq_length_filter,
    countP_map_upgrade_other sid sp2 s hne]

/-- If a Capture step takes the species' distinct-player count away from 0,
it is a Capture of that species whose result flags `first_overall`. -/
theorem capture_change_firstOverall {req : CaptureReq} {now : String}
    {st : Store} {body : CaptureBody} {status : Nat} {st2 : Store}
    {s : String}
    (h : processCapture req now st = Except.ok ((body, status), st2))
    (h0 : distinctPlayers st s = 0)
    (h1 : distinctPlayers st2 s ≠ 0) :
    req.pokemon_name = s ∧
    ∃ f, body = CaptureBody.flags f ∧ f.first_overall = true := by
  cases body with
  | ignored reason =>
    exfalso
    rw [processCapture_ignored_inv h] at h1
    exact h1 h0
  | flags f =>
    rcases processCapture_flags_inv h with ⟨hf, hst⟩ | ⟨_, _, _, hst2, hf⟩
    · exfalso
      rw [hst] at h1
      exact h1 h0
    · have hd : distinctPlayers st2 s =
          distinctPlayers (insertCaptureIfAbsent st req.steam_id
            req.pokemon_name req.shiny (match req.captured_at with
              | some t => t
              | none => now)).fst s := by
        rw [hst2]
        by_cases hq : req.shiny = true
        · rw [if_pos hq, distinctPlayers_upgrade]
        · rw [if_neg hq]
      cases hfind : findCapture st req.steam_id req.pokemon_name with
      | some r =>
        exfalso
        rw [hd, insert_fst_of_some hfind] at h1
        exact h1 h0
      | none =>
        by_cases hsp : req.pokemon_name = s
        · refine ⟨hsp, f, rfl, ?_⟩
          rw [hf]
          show ((insertCaptureIfAbsent st req.steam_id req.pokemon_name
            req.shiny (match req.captured_at with
              | some t => t
              | none => now)).snd &&
            decide (distinctPlayers st req.pokemon_name = 0)) = true
          rw [insert_snd_of_none hfind, hsp, h0]
          simp
        · exfalso
          rw [hd, insert_fst_of_none hfind,
            distinctPlayers_append_other hsp] at h1
          exact h1 h0

/-- If a Capture step takes the species' shiny-row count away from 0, it is
a Capture of that species whose result flags `first_shiny`. -/
theorem capture_change_firstShiny {req : CaptureReq} {now : String}
    {st : Store} {body : CaptureBody} {status : Nat} {st2 : Store}
    {s : String}
    (h : processCapture req now st = Except.ok ((body, status), st2))
    (h0 : shinyRows st s = 0)
    (h1 : shinyRows st2 s ≠ 0) :
    req.pokemon_name = s ∧
    ∃ f, body = CaptureBody.flags f ∧ f.first_shiny = true := by
  cases body with
  | ignored reason =>
    exfalso
    rw [processCapture_ignored_inv h] at h1
    exact h1 h0
  | flags f =>
    rcases processCapture_flags_inv h with ⟨hf, hst⟩ | ⟨_, _, _, hst2, hf⟩
    · exfalso
      rw [hst] at h1
      exact h1 h0
    · by_cases hq : req.shiny = true
      · by_cases hsp : req.pokemon_name = s
        · refine ⟨hsp, f, rfl, ?_⟩
          subst hsp
          rw [hf]
          simp only [Bool.and_eq_true, Bool.or_eq_true, decide_eq_true_eq]
          refine ⟨⟨hq, h0⟩, ?_⟩
          by_cases hins : (insertCaptureIfAbsent st req.steam_id
              req.pokemon_name req.shiny (match req.captured_at with
                | some t => t
                | none => now)).snd = true
          · exact Or.inl hins
          · cases hfind : findCapture st req.steam_id req.pokemon_name with
            | none => exact absurd (insert_snd_of_none hfind) hins
            | some r =>
              right
              rw [if_pos hq]
              by_contra hcon
              have hz : (upgradeToShiny (insertCaptureIfAbsent st
                  req.steam_id req.pokemon_name req.shiny
                  (match req.captured_at with
                    | some t => t
                    | none => now)).fst req.steam_id
                  req.pokemon_name).snd = 0 := by omega
              apply h1
              rw [hst2, if_pos hq, shinyRows_upgrade_eq, hz,
                insert_fst_of_some hfind, h0]
        · exfalso
          apply h1
          rw [hst2, if_pos hq, shinyRows_upgrade_other hsp]
          cases hfind : findCapture st req.steam_id req.pokemon_name with
          | some r =>
            rw [insert_fst_of_some hfind]
            exact h0
          | none =>
            rw [insert_fst_of_none hfind, shinyRows_append]
            have hb : (req.pokemon_name == s) = false :=
              beq_eq_false_iff_ne.mpr hsp
            simp [hb, h0]
      · exfalso
        have hq2 : req.shiny = false := by simpa using hq
        apply h1
        rw [hst2, if_neg hq]
        cases hfind : findCapture st req.steam_id req.pokemon_name with
        | some r =>
          rw [insert_fst_of_some hfind]
          exact h0
        | none =>
          rw [insert_fst_of_none hfind, shinyRows_append]
          simp [hq2, h0]


theorem storeAfter_append (st : Store) (l1 l2 : List Intent) :
    storeAfter st (l1 ++ l2) = storeAfter (storeAfter st l1) l2 :=
  List.foldl_append _ _ _ _

theorem storeAfter_take_succ {st : Store} {l : List Intent} {i : Nat}
    {it : Intent} (hget : l.get? i = some it) :
    storeAfter st (l.take (i + 1)) =
      (stepIntent (storeAfter st (l.take i)) it).fst := by
  have hget2 : l[i]? = some it := by rwa [← List.get?_eq_getElem?]
  rw [List.take_succ, hget2, storeAfter_append]
  rfl

theorem outcomeAt_eq {st : Store} {l : List Intent} {i : Nat} {it : Intent}
    (hget : l.get? i = some it) :
    outcomeAt st l i =
      some (stepIntent (storeAfter st (l.take i)) it).snd := by
  unfold outcomeAt
  rw [hget]
  rfl

/-- A fired Capture outcome determines the `_process_capture` equation
between the store before the step and the store after it. -/
theorem fires_common {st0 : Store} {l : List Intent} {i : Nat}
    {req : CaptureReq} {now : String} {f : CaptureFlags} {status : Nat}
    (hget : l.get? i = some (Intent.capture req now))
    (hout : outcomeAt st0 l i =
      some (Outcome.captured (CaptureBody.flags f) status)) :
    processCapture req now (storeAfter st0 (l.take i)) =
      Except.ok ((CaptureBody.flags f, status),
        storeAfter st0 (l.take (i + 1))) := by
  rw [outcomeAt_eq hget] at hout
  have h2 := outcome_captured_inv (Option.some.inj hout)
  rw [storeAfter_take_succ hget]
  exact h2

theorem preAt_mono_distinct (s : String) (st0 : Store) (l : List Intent)
    (hnu : ∀ it ∈ l, it.isUncapture = false) {a b : Nat} (hab : a ≤ b) :
    distinctPlayers (storeAfter st0 (l.take a)) s ≤
      distinctPlayers (storeAfter st0 (l.take b)) s := by
  have hb : b = a + (b - a) := by omega
  rw [hb, List.take_add, storeAfter_append]
  apply distinctPlayers_run_le
  intro it hit
  exact hnu it (List.drop_subset a l (List.take_subset _ _ hit))

theorem preAt_mono_shiny (s : String) (st0 : Store) (l : List Intent)
    (hnu : ∀ it ∈ l, it.isUncapture = false) {a b : Nat} (hab : a ≤ b) :
    shinyRows (storeAfter st0 (l.take a)) s ≤
      shinyRows (storeAfter st0 (l.take b)) s := by
  have hb : b = a + (b - a) := by omega
  rw [hb, List.take_add, storeAfter_append]
  apply shinyRows_run_le
  intro it hit
  exact hnu it (List.drop_subset a l (List.take_subset _ _ hit))


/-- If a run moves the distinct-player count of a species away from 0, some
step of it fires `first_overall` for the species. -/
theorem exists_firstOverall_of_change (s : String) :
    ∀ (l : List Intent) (st0 : Store),
    (∀ it ∈ l, it.isUncapture = false) →
    distinctPlayers st0 s = 0 →
    distinctPlayers (storeAfter st0 l) s ≠ 0 →
    ∃ i, firesFirstOverall st0 l s i
  | [], st0, _, h0, h1 => absurd h0 h1
  | it :: t, st0, hnu, h0, h1 => by
    by_cases hmid : distinctPlayers (stepIntent st0 it).fst s = 0
    · have h1b : distinctPlayers
          (storeAfter (stepIntent st0 it).fst t) s ≠ 0 := by
        unfold storeAfter at h1 ⊢
        simpa [List.foldl_cons] using h1
      obtain ⟨i, hf⟩ := exists_firstOverall_of_change s t
        (stepIntent st0 it).fst
        (fun x hx => hnu x (List.mem_cons_of_mem it hx)) hmid h1b
      obtain ⟨req, now, f, status, hget, hsp, hout, hfo⟩ := hf
      refine ⟨i + 1, req, now, f, status, by simpa using hget, hsp, ?_, hfo⟩
      unfold outcomeAt at hout ⊢
      simp only [List.get?_cons_succ, List.take_succ_cons]
      unfold storeAfter at hout ⊢
      simp only [List.foldl_cons]
      exact hout
    · cases it with
      | register req now =>
        exfalso
        apply hmid
        have hc : ((stepIntent st0 (Intent.register req now)).fst).captures =
            st0.captures := rfl
        rw [distinctPlayers_congr hc]
        exact h0
      | uncapture req =>
        have h2 := hnu (Intent.uncapture req) (by simp)
        simp [Intent.isUncapture] at h2
      | capture req now =>
        rcases hp : processCapture req now st0 with e | r
        · exfalso
          apply hmid
          rw [stepIntent_capture_fst]
          unfold capturePostStore
          rw [hp]
          exact h0
        · rcases r with ⟨⟨body, status⟩, st2⟩
          have hstep : (stepIntent st0 (Intent.capture req now)).fst =
              st2 := by
            rw [stepIntent_capture_fst]
            unfold capturePostStore
            rw [hp]
          rw [hstep] at hmid
          obtain ⟨hsp, f, hbody, hfo⟩ :=
            capture_change_firstOverall hp h0 hmid
          refine ⟨0, req, now, f, status, rfl, hsp, ?_, hfo⟩
          show ((Intent.capture req now :: t).get? 0).map _ = _
          simp only [List.get?_cons_zero, Option.map_some]
          rw [List.take_zero]
          show some ((stepIntent (storeAfter st0 []) _).snd) = _
          rw [show storeAfter st0 [] = st0 from rfl]
          rw [stepIntent_capture_eq, hp, hbody]

/-- If a run moves the shiny-row count of a species away from 0, some step
of it fires `first_shiny` for the species. -/
theorem exists_firstShiny_of_change (s : String) :
    ∀ (l : List Intent) (st0 : Store),
    (∀ it ∈ l, it.isUncapture = false) →
    shinyRows st0 s = 0 →
    shinyRows (storeAfter st0 l) s ≠ 0 →
    ∃ i, firesFirstShiny st0 l s i
  | [], st0, _, h0, h1 => absurd h0 h1
  | it :: t, st0, hnu, h0, h1 => by
    by_cases hmid : shinyRows (stepIntent st0 it).fst s = 0
    · have h1b : shinyRows (storeAfter (stepIntent st0 it).fst t) s ≠ 0 := by
        unfold storeAfter at h1 ⊢
        simpa [List.foldl_cons] using h1
      obtain ⟨i, hf⟩ := exists_firstShiny_of_change s t
        (stepIntent st0 it).fst
        (fun x hx => hnu x (List.mem_cons_of_mem it hx)) hmid h1b
      obtain ⟨req, now, f, status, hget, hsp, hout, hfs⟩ := hf
      refine ⟨i + 1, req, now, f, status, by simpa using hget, hsp, ?_, hfs⟩
      unfold outcomeAt at hout ⊢
      simp only [List.get?_cons_succ, List.take_succ_cons]
      unfold storeAfter at hout ⊢
      simp only [List.foldl_cons]
      exact hout
    · cases it with
      | register req now =>
        exfalso
        apply hmid
        have hc : ((stepIntent st0 (Intent.register req now)).fst).captures =
            st0.captures := rfl
        rw [shinyRows_congr hc]
        exact h0
      | uncapture req =>
        have h2 := hnu (Intent.uncapture req) (by simp)
        simp [Intent.isUncapture] at h2
      | capture req now =>
        rcases hp : processCapture req now st0 with e | r
        · exfalso
          apply hmid
          rw [stepIntent_capture_fst]
          unfold capturePostStore
          rw [hp]
          exact h0
        · rcases r with ⟨⟨body, status⟩, st2⟩
          have hstep : (stepIntent st0 (Intent.capture req now)).fst =
              st2 := by
            rw [stepIntent_capture_fst]
            unfold capturePostStore
            rw [hp]
          rw [hstep] at hmid
          obtain ⟨hsp, f, hbody, hfs⟩ := capture_change_firstShiny hp h0 hmid
          refine ⟨0, req, now, f, status, rfl, hsp, ?_, hfs⟩
          show ((Intent.capture req now :: t).get? 0).map _ = _
          simp only [List.get?_cons_zero, Option.map_some]
          rw [List.take_zero]
          show some ((stepIntent (storeAfter st0 []) _).snd) = _
          rw [show storeAfter st0 [] = st0 from rfl]
          rw [stepIntent_capture_eq, hp, hbody]


/-- Counterexample to C2 as stated: with an Uncapture intent in the
sequence, the Capture intents at positions 1 and 3 (same player, same
species "Pikachu") both return `first_overall = true`, so the flag is not
true for exactly one successful Capture intent per species over sequences
of merge-engine intents. -/
theorem c2_counterexample :
    firesFirstOverall ⟨[], []⟩ seqWithUncapture "Pikachu" 1 ∧
    firesFirstOverall ⟨[], []⟩ seqWithUncapture "Pikachu" 3 ∧
    (1 : Nat) ≠ 3 := by
  refine ⟨⟨⟨"P1", "Pikachu", false, some "t1"⟩, "t1",
    ⟨true, false, true, false⟩, 201, by decide, rfl, by decide, rfl⟩,
    ⟨⟨"P1", "Pikachu", false, some "t2"⟩, "t2",
    ⟨true, false, true, false⟩, 201, by decide, rfl, by decide, rfl⟩,
    by decide⟩

/-- C2 amended: over every sequence of Register and Capture intents (no
Uncapture) processed sequentially from a well-formed store holding no rows
of the species, `first_overall` is returned true for at most one Capture
intent of the species — one taking its distinct-player count from 0 to 1 —
and for exactly one whenever the run leaves the species captured at all;
`first_shiny` likewise for the shiny-row count, regardless of how intents
of different players interleave. -/
theorem c2_milestone_exactness (s : String) (st0 : Store) (l : List Intent)
    (hwf : WF st0)
    (hnu : ∀ it ∈ l, it.isUncapture = false)
    (h0 : distinctPlayers st0 s = 0) (hs0 : shinyRows st0 s = 0) :
    (∀ i j, firesFirstOverall st0 l s i → firesFirstOverall st0 l s j →
      i = j) ∧
    (∀ i, firesFirstOverall st0 l s i →
      distinctPlayers (storeAfter st0 (l.take i)) s = 0 ∧
      distinctPlayers (storeAfter st0 (l.take (i + 1))) s = 1) ∧
    (distinctPlayers (storeAfter st0 l) s ≠ 0 →
      ∃ i, firesFirstOverall st0 l s i) ∧
    (∀ i j, firesFirstShiny st0 l s i → firesFirstShiny st0 l s j →
      i = j) ∧
    (∀ i, firesFirstShiny st0 l s i →
      shinyRows (storeAfter st0 (l.take i)) s = 0 ∧
      shinyRows (storeAfter st0 (l.take (i + 1))) s = 1) ∧
    (shinyRows (storeAfter st0 l) s ≠ 0 →
      ∃ i, firesFirstShiny st0 l s i) := by
  have hOc : ∀ i, firesFirstOverall st0 l s i →
      distinctPlayers (storeAfter st0 (l.take i)) s = 0 ∧
      distinctPlayers (storeAfter st0 (l.take (i + 1))) s = 1 := by
    intro i hf
    obtain ⟨req, now, f, status, hget, hsp, hout, hfo⟩ := hf
    have hpc := fires_common hget hout
    have h2 := step_firstOverall_counts hpc hfo
    rwa [hsp] at h2
  have hSc : ∀ i, firesFirstShiny st0 l s i →
      shinyRows (storeAfter st0 (l.take i)) s = 0 ∧
      shinyRows (storeAfter st0 (l.take (i + 1))) s = 1 := by
    intro i hf
    obtain ⟨req, now, f, status, hget, hsp, hout, hfs⟩ := hf
    have hpc := fires_common hget hout
    have h2 := step_firstShiny_counts (WF_run _ _ hwf) hpc hfs
    rwa [hsp] at h2
  have keyO : ∀ a b, a < b → firesFirstOverall st0 l s a →
      firesFirstOverall st0 l s b → False := by
    intro a b hab ha hb
    have h1 := (hOc a ha).2
    have h2 := (hOc b hb).1
    have h3 := preAt_mono_distinct s st0 l hnu
      (show a + 1 ≤ b by omega)
    omega
  have keyS : ∀ a b, a < b → firesFirstShiny st0 l s a →
      firesFirstShiny st0 l s b → False := by
    intro a b hab ha hb
    have h1 := (hSc a ha).2
    have h2 := (hSc b hb).1
    have h3 := preAt_mono_shiny s st0 l hnu
      (show a + 1 ≤ b by omega)
    omega
  refine ⟨?_, hOc, exists_firstOverall_of_change s l st0 hnu h0, ?_, hSc,
    exists_firstShiny_of_change s l st0 hnu hs0⟩
  · intro i j hi hj
    rcases Nat.lt_trichotomy i j with h | h | h
    · exact (keyO i j h hi hj).elim
    · exact h
    · exact (keyO j i h hj hi).elim
  · intro i j hi hj
    rcases Nat.lt_trichotomy i j with h | h | h
    · exact (keyS i j h hi hj).elim
    · exact h
    · exact (keyS j i h hj hi).elim

/-- Witness for C2 amended: on the uncapture-free run, the species ends up
captured, so some intent fires `first_overall`. -/
theorem c2_milestone_exactness_witness :
    ∃ i, firesFirstOverall ⟨[], []⟩ seqRegCap "Pikachu" i :=
  (c2_milestone_exactness "Pikachu" ⟨[], []⟩ seqRegCap (by decide)
    (by decide) (by decide) (by decide)).2.2.1 (by decide)

end Pokedex
